import Mathlib

/-!
Verification of the question-synthesis engine of the billiards MCQ dataset
generator.  The Lean definitions below are a shallow embedding of the Python
modules `question_gen/options.py`, `question_gen/data_utils.py` and
`question_gen/generator.py`:

* Python numbers are modelled by `Int`/`ℚ` (floats by exact rationals),
  strings by `String`, tuples/lists by Lean lists, and the untrusted raw
  JSON records by the `PyVal` universe further below.
* Randomness (`random.sample`, `random.shuffle`) is modelled by passing the
  random draw explicitly: `random.sample(items, k)` with `0 < k < len(items)`
  returns the first `k` entries of an arbitrary permutation `r` of `items`,
  and `random.shuffle(l)` returns an arbitrary permutation of `l`.  Theorems
  quantify over those permutations, so they cover every possible draw.
-/

/-- Mirrors `tense.py`: the three supported verbal tenses. -/
inductive Tense where
  | base
  | future
  | conditional
deriving DecidableEq, Repr

/-- One positional argument of an `OptionFact` (Python stores strings or ints
in the `args` tuple). -/
inductive OptionArg where
  | str (s : String)
  | int (n : Int)
deriving DecidableEq, Repr

/-- Mirrors the frozen dataclass `OptionFact` of `options.py`: a predicate
kind together with its positional arguments. -/
structure OptionFact where
  kind : String
  args : List OptionArg := []
deriving DecidableEq, Repr

/-- Canonical pocket colors (`POCKET_COLORS` in `options.py`). -/
def POCKET_COLORS : List String :=
  ["gray", "purple", "blue", "orange", "green", "red"]

/-- Canonical wall names (`WALL_NAMES` in `options.py`). -/
def WALL_NAMES : List String :=
  ["green-blue-wall", "orange-red-wall", "grey-orange-wall",
   "purple-grey-wall", "blue-purple-wall", "red-green-wall"]

/-- The normalized single-ball outcomes dict consumed by
`facts_from_outcome`, with the types the pipeline stores in it
(`num_wall_hits`: int, `wall_hits`: list of wall-name strings,
`pocketed`: bool, `pocket_color`: optional string; `none` models the Python
`None` and `some ""` a present-but-empty color, which is falsy). -/
structure Outcomes where
  num_wall_hits : Int
  wall_hits : List String
  pocketed : Bool
  pocket_color : Option String
deriving DecidableEq, Repr

/-- Order-preserving deduplication with an explicit `seen` accumulator; this
is the `seen`-set loop at the end of `facts_from_outcome`. -/
def dedupFacts (seen : List OptionFact) : List OptionFact → List OptionFact
  | [] => []
  | f :: rest =>
      if f ∈ seen then dedupFacts seen rest
      else f :: dedupFacts (f :: seen) rest

/-- The pocket-related facts of `facts_from_outcome`: exactly one of
`pocketed`/`not_pocketed`, plus `pocketed_in` when a truthy color is known
(a missing color or the falsy empty string emits no `pocketed_in`). -/
def pocketFacts (outcomes : Outcomes) : List OptionFact :=
  if outcomes.pocketed then
    OptionFact.mk "pocketed" [] ::
      (match outcomes.pocket_color with
       | some c => if c ≠ "" then [OptionFact.mk "pocketed_in" [.str c]] else []
       | none => [])
  else [OptionFact.mk "not_pocketed" []]

/-- The aggregate wall-count facts of `facts_from_outcome`, keyed on
`num_wall_hits` (note that the Python code passes the raw `hits` count to
both `hits_same_wall_n_times` and `hits_n_diff_walls`). -/
def countFacts (outcomes : Outcomes) : List OptionFact :=
  if outcomes.num_wall_hits = 0 then [OptionFact.mk "hits_0_walls" []]
  else if outcomes.num_wall_hits = 1 then [OptionFact.mk "hits_1_wall" []]
  else if 2 ≤ outcomes.num_wall_hits then
    if ¬ outcomes.wall_hits.isEmpty ∧
        (outcomes.wall_hits.length : Int) = outcomes.num_wall_hits ∧
        outcomes.wall_hits.dedup.length = 1 then
      [OptionFact.mk "hits_same_wall_n_times" [.int outcomes.num_wall_hits]]
    else
      [OptionFact.mk "hits_n_diff_walls" [.int outcomes.num_wall_hits]]
  else []

/-- The sequence facts of `facts_from_outcome`: the labels of the first
three wall hits, as far as they exist. -/
def seqFacts : List String → List OptionFact
  | [] => []
  | [a] => [OptionFact.mk "first_wall_hit" [.str a]]
  | [a, b] =>
      [OptionFact.mk "first_wall_hit" [.str a],
       OptionFact.mk "second_wall_hit" [.str b]]
  | a :: b :: c :: _ =>
      [OptionFact.mk "first_wall_hit" [.str a],
       OptionFact.mk "second_wall_hit" [.str b],
       OptionFact.mk "third_wall_hit" [.str c]]

/-- Mirrors `facts_from_outcome` of `options.py`: convert a normalized
outcomes dict into an ordered, duplicate-free list of logical facts
(pocket facts, then the wall-count fact, then the sequence facts, finally
deduplicated preserving first occurrences). -/
def facts_from_outcome (outcomes : Outcomes) : List OptionFact :=
  dedupFacts []
    (pocketFacts outcomes ++ countFacts outcomes ++ seqFacts outcomes.wall_hits)

/-- String form of one argument, as Python `str()` renders it inside the
fallback f-string of `OptionRenderer.render`. -/
def argStr : OptionArg → String
  | .str s => s
  | .int n => toString n

/-- Mirrors `OptionRenderer._pocketed`. -/
def renderPocketed (tense : Tense) : String :=
  if tense = .future then "The ball will be pocketed"
  else if tense = .conditional then "The ball would be pocketed"
  else "The ball was pocketed"

/-- Mirrors `OptionRenderer._pocketed_in`. -/
def renderPocketedIn (color : String) (tense : Tense) : String :=
  if tense = .future then "The ball will be pocketed in the " ++ color ++ " pocket"
  else if tense = .conditional then "The ball would be pocketed in the " ++ color ++ " pocket"
  else "The ball was pocketed in the " ++ color ++ " pocket"

/-- Mirrors `OptionRenderer._not_pocketed`. -/
def renderNotPocketed (tense : Tense) : String :=
  if tense = .future then "The ball will not be pocketed"
  else if tense = .conditional then "The ball would not be pocketed"
  else "The ball was not pocketed"

/-- The shared verb of the wall-count helpers of `OptionRenderer`. -/
def hitVerb (tense : Tense) : String :=
  if tense = .future then "will hit"
  else if tense = .conditional then "would hit"
  else "hits"

/-- Mirrors `OptionRenderer._hits_n_walls` (pluralizing wall/walls). -/
def renderHitsNWalls (n : Int) (tense : Tense) : String :=
  let unit := if n = 1 then "wall" else "walls"
  "The ball " ++ hitVerb tense ++ " " ++ toString n ++ " " ++ unit

/-- Mirrors `OptionRenderer._hits_diff_walls`. -/
def renderHitsDiffWalls (n : Int) (tense : Tense) : String :=
  "The ball " ++ hitVerb tense ++ " " ++ toString n ++ " different walls"

/-- Mirrors `OptionRenderer._hits_same_wall_n_times`. -/
def renderHitsSameWall (n : Int) (tense : Tense) : String :=
  "The ball " ++ hitVerb tense ++ " the same wall " ++ toString n ++ " times"

/-- Mirrors `OptionRenderer._wall_hit_order` (order 1/2/3; any other order
collapses to "third" exactly as the Python if/elif/else chain does). -/
def renderWallHitOrder (order : Nat) (name : String) (tense : Tense) : String :=
  let pre := if order = 1 then "first" else if order = 2 then "second" else "third"
  let mid :=
    if tense = .future then "hit will be"
    else if tense = .conditional then "hit would be"
    else "hit was"
  "The " ++ pre ++ " wall " ++ mid ++ " " ++ name

/-- Mirrors `OptionRenderer.render`: dispatch on the fact kind.  Facts whose
argument tuple does not have the shape the Python code indexes into (on which
Python would raise an IndexError/ValueError) fall through to the generic
fallback branch; no claim below ever reaches such a fact. -/
def render (fact : OptionFact) (tense : Tense) : String :=
  match fact.kind, fact.args with
  | "pocketed", _ => renderPocketed tense
  | "pocketed_in", .str c :: _ => renderPocketedIn c tense
  | "not_pocketed", _ => renderNotPocketed tense
  | "hits_0_walls", _ => renderHitsNWalls 0 tense
  | "hits_1_wall", _ => renderHitsNWalls 1 tense
  | "hits_n_diff_walls", .int n :: _ => renderHitsDiffWalls n tense
  | "hits_same_wall_n_times", .int n :: _ => renderHitsSameWall n tense
  | "first_wall_hit", .str name :: _ => renderWallHitOrder 1 name tense
  | "second_wall_hit", .str name :: _ => renderWallHitOrder 2 name tense
  | "third_wall_hit", .str name :: _ => renderWallHitOrder 3 name tense
  | k, args => k ++ "(" ++ String.intercalate ", " (args.map argStr) ++ ")"

/-- An argument tuple holding exactly one string. -/
def argsOneStr : List OptionArg → Option String
  | [.str s] => some s
  | _ => none

/-- An argument tuple holding exactly one integer. -/
def argsOneInt : List OptionArg → Option Int
  | [.int n] => some n
  | _ => none

/-- The argument tuple is a single canonical pocket color. -/
def pocketColorOk (l : List OptionArg) : Bool :=
  match argsOneStr l with
  | some c => POCKET_COLORS.contains c
  | none => false

/-- The argument tuple is a single count of at least 2. -/
def countOk (l : List OptionArg) : Bool :=
  match argsOneInt l with
  | some n => 2 ≤ n
  | none => false

/-- The argument tuple is a single canonical wall name. -/
def wallNameOk (l : List OptionArg) : Bool :=
  match argsOneStr l with
  | some w => WALL_NAMES.contains w
  | none => false

/-- The closed fact vocabulary of the spec (section 3 table): kinds with
well-shaped arguments, colors and wall names drawn from the canonical lists,
counts at least 2. -/
def vocabFact (f : OptionFact) : Bool :=
  (f.kind == "pocketed" && f.args.isEmpty) ||
  (f.kind == "not_pocketed" && f.args.isEmpty) ||
  (f.kind == "hits_0_walls" && f.args.isEmpty) ||
  (f.kind == "hits_1_wall" && f.args.isEmpty) ||
  (f.kind == "pocketed_in" && pocketColorOk f.args) ||
  (f.kind == "hits_n_diff_walls" && countOk f.args) ||
  (f.kind == "hits_same_wall_n_times" && countOk f.args) ||
  (f.kind == "first_wall_hit" && wallNameOk f.args) ||
  (f.kind == "second_wall_hit" && wallNameOk f.args) ||
  (f.kind == "third_wall_hit" && wallNameOk f.args)

/-- The global distractor pool `DISTRACTOR_POOL_FACTS` of `options.py`. -/
def DISTRACTOR_POOL_FACTS : List OptionFact :=
  [OptionFact.mk "pocketed" []] ++
  POCKET_COLORS.map (fun c => OptionFact.mk "pocketed_in" [.str c]) ++
  [OptionFact.mk "not_pocketed" [],
   OptionFact.mk "hits_0_walls" [],
   OptionFact.mk "hits_1_wall" []] ++
  ([2, 3].map fun n => OptionFact.mk "hits_n_diff_walls" [.int n]) ++
  ([2, 3].map fun n => OptionFact.mk "hits_same_wall_n_times" [.int n]) ++
  (WALL_NAMES.map fun w => OptionFact.mk "first_wall_hit" [.str w]) ++
  (WALL_NAMES.map fun w => OptionFact.mk "second_wall_hit" [.str w]) ++
  (WALL_NAMES.map fun w => OptionFact.mk "third_wall_hit" [.str w])

/-- Mirrors the helper `random_sample` of `options.py`: `k <= 0` yields `[]`,
`k >= len(items)` yields the items unchanged, and otherwise the draw is the
first `k` entries of the permutation `r` of `items` supplied as the random
source (see the module docstring). -/
def random_sample (items : List OptionFact) (k : Int) (r : List OptionFact) :
    List OptionFact :=
  if k ≤ 0 then []
  else if (items.length : Int) ≤ k then items
  else r.take k.toNat

/-- The `true_facts` fallback at the top of `sample_multilabel_from_facts`:
an empty list is replaced by the singleton `[not_pocketed]`. -/
def trueFactsOrDefault (true_facts : List OptionFact) : List OptionFact :=
  if true_facts.isEmpty then [OptionFact.mk "not_pocketed" []] else true_facts

/-- The clamped number of correct options:
`num_correct = max(1, min(num_correct, len(true_facts), total))`. -/
def clampedNumCorrect (true_facts : List OptionFact) (total num_correct : Int) :
    Int :=
  max 1 (min num_correct
    (min ((trueFactsOrDefault true_facts).length : Int) total))

/-- The facts chosen to be marked correct
(`random_sample(true_facts, num_correct)`), with `r1` the random draw. -/
def chosenTrue (true_facts : List OptionFact) (total num_correct : Int)
    (r1 : List OptionFact) : List OptionFact :=
  random_sample (trueFactsOrDefault true_facts)
    (clampedNumCorrect true_facts total num_correct) r1

/-- The distractor candidates: `pool_facts` minus the chosen-true set. -/
def distractorCandidates (true_facts pool_facts : List OptionFact)
    (total num_correct : Int) (r1 : List OptionFact) : List OptionFact :=
  pool_facts.filter (fun f => ¬ f ∈ chosenTrue true_facts total num_correct r1)

/-- The sampled distractors
(`random_sample(candidates, min(total - num_correct, len(candidates)))`),
with `r2` the random draw. -/
def sampledDistractors (true_facts pool_facts : List OptionFact)
    (total num_correct : Int) (r1 r2 : List OptionFact) : List OptionFact :=
  let candidates := distractorCandidates true_facts pool_facts total num_correct r1
  random_sample candidates
    (min (max 0 (total - clampedNumCorrect true_facts total num_correct))
      (candidates.length : Int)) r2

/-- The labeled concatenation `[(f, True) for chosen] + [(f, False) for
distractors]`. -/
def labeledFacts (true_facts pool_facts : List OptionFact)
    (total num_correct : Int) (r1 r2 : List OptionFact) :
    List (OptionFact × Bool) :=
  (chosenTrue true_facts total num_correct r1).map (fun f => (f, true)) ++
    (sampledDistractors true_facts pool_facts total num_correct r1 r2).map
      (fun f => (f, false))

/-- Order-preserving deduplication of labeled facts by the fact component,
with an explicit `seen` accumulator (the dedup loop of
`sample_multilabel_from_facts`; a later duplicate is dropped). -/
def dedupLabeled (seen : List OptionFact) :
    List (OptionFact × Bool) → List (OptionFact × Bool)
  | [] => []
  | p :: rest =>
      if p.1 ∈ seen then dedupLabeled seen rest
      else p :: dedupLabeled (p.1 :: seen) rest

/-- The deduplicated labeled list that `random.shuffle` permutes. -/
def dedupedLabeled (true_facts pool_facts : List OptionFact)
    (total num_correct : Int) (r1 r2 : List OptionFact) :
    List (OptionFact × Bool) :=
  dedupLabeled [] (labeledFacts true_facts pool_facts total num_correct r1 r2)

/-- Mirrors `sample_multilabel_from_facts` of `options.py`.  `r1` and `r2`
are the two `random.sample` draws and `r3` is the result of
`random.shuffle(deduped)`; theorems require
`r3.Perm (dedupedLabeled ...)` (and the analogous contracts for `r1`, `r2`),
which characterizes exactly the possible shuffles.  Returns the rendered
option strings and the indices of the options marked correct. -/
def sample_multilabel_from_facts (true_facts pool_facts : List OptionFact)
    (total num_correct : Int) (tense : Tense)
    (r1 r2 : List OptionFact) (r3 : List (OptionFact × Bool)) :
    List String × List Nat :=
  let options := r3.map (fun p => render p.1 tense)
  let ground_truth := (r3.enum.filter (fun p => p.2.2)).map (fun p => p.1)
  (options, ground_truth)

/-- Rounded 3-tuples of floats (exact rationals in the model). -/
abbrev Vec3 := ℚ × ℚ × ℚ

/-- The `initial_state` sub-record of a normalized entry, as read by the
counterfactual matcher. -/
structure InitState where
  position : Vec3
  velocity : Vec3
deriving DecidableEq, Repr

/-- Association-list lookup, modelling Python `dict.get(key, default)` for
the index dictionaries (dict keys are unique; the first match wins). -/
def dictGetD (m : List (Vec3 × List Nat)) (k : Vec3) (d : List Nat) :
    List Nat :=
  match m with
  | [] => d
  | (k2, v) :: rest => if k2 = k then v else dictGetD rest k d

/-- Mirrors `find_velocity_cfs` of `data_utils.py`: ids sharing the rounded
position but with a different rounded velocity.  `random.sample(candidates,
min(n, len(candidates)))` is modelled as the first `min n len` entries of the
permutation `r` of the filtered candidates (the random draw). -/
def find_velocity_cfs (pos vel : Vec3) (pos_to_ids : List (Vec3 × List Nat))
    (id2entry : Nat → InitState) (n : Nat) (r : List Nat) : List Nat :=
  let candidates := dictGetD pos_to_ids pos []
  let candidates := candidates.filter (fun i => (id2entry i).velocity ≠ vel)
  if candidates.isEmpty then []
  else r.take (min n candidates.length)

/-- Mirrors `find_position_cfs` of `data_utils.py`: ids sharing the rounded
velocity but with a different rounded position. -/
def find_position_cfs (pos vel : Vec3) (vel_to_ids : List (Vec3 × List Nat))
    (id2entry : Nat → InitState) (n : Nat) (r : List Nat) : List Nat :=
  let candidates := dictGetD vel_to_ids vel []
  let candidates := candidates.filter (fun i => (id2entry i).position ≠ pos)
  if candidates.isEmpty then []
  else r.take (min n candidates.length)

/-- Round-half-to-even on rationals (the rounding of both Python `round` and
`%.2f` formatting once scaled; exact on the 2-decimal values this pipeline
stores). -/
def roundHalfEven (x : ℚ) : Int :=
  let f : Int := ⌊x⌋
  let r : ℚ := x - f
  if r < 1/2 then f
  else if 1/2 < r then f + 1
  else if f % 2 = 0 then f else f + 1

/-- Round a rational to 2 decimal places (Python `round(x, 2)`). -/
def round2 (x : ℚ) : ℚ := (roundHalfEven (x * 100) : ℚ) / 100

/-- Two decimal digits of `r` (for `r < 100`), most significant first. -/
def twoDigits (r : Nat) : String :=
  String.mk [Nat.digitChar (r / 10), Nat.digitChar (r % 10)]

/-- Python `"%.2f" % x` on the rational model: sign taken from the value
(so a tiny negative value renders as `-0.00`), magnitude rounded to two
decimal places. -/
def fmtTwo (x : ℚ) : String :=
  let sign := if x < 0 then "-" else ""
  let m : Nat := (roundHalfEven (|x| * 100)).toNat
  sign ++ toString (m / 100) ++ "." ++ twoDigits (m % 100)

/-- Mirrors `coord_to_str` of `data_utils.py`: the first two components are
formatted with two decimals, with components of magnitude below 0.005 first
replaced by literal `0.0` (so they can never render as `-0.00`). -/
def coord_to_str (coord : Vec3) (pre : String) : String :=
  let x := if 1/200 ≤ |coord.1| then coord.1 else 0
  let y := if 1/200 ≤ |coord.2.1| then coord.2.1 else 0
  "(" ++ pre ++ "x=" ++ fmtTwo x ++ ", " ++ pre ++ "y=" ++ fmtTwo y ++ ")"

/-- One wall-hit event of an entry's `hits_detail` list, as the generator
reads it: an event-type tag, the wall name, and the frame index. -/
structure GHit where
  htype : String
  name : String
  frame : ℚ
deriving DecidableEq, Repr

/-- Mirrors the predictive filtering step of `generate_sft_mcq_multilabel`
(`generator.py`): the threshold is `predictive_filter_fraction *
total_frames` when `total_frames` is truthy and `0` otherwise, and the
filtered outcome keeps the names of the wall-type events whose frame is at
or above the threshold, in order. -/
def predictive_wall_hits (hits_detail : List GHit)
    (total_frames predictive_filter_fraction : ℚ) : List String :=
  let threshold : ℚ :=
    if total_frames ≠ 0 then predictive_filter_fraction * total_frames else 0
  let filtered_hits := hits_detail.filter
    (fun h => h.htype = "wall" ∧ threshold ≤ h.frame)
  filtered_hits.map (fun h => h.name)

/-- Decimal digit characters of a natural number, most significant first;
this is the character list that `Nat.repr` produces (proved below). -/
def natChars (n : Nat) : List Char :=
  if h : n < 10 then [Nat.digitChar n]
  else natChars (n / 10) ++ [Nat.digitChar (n % 10)]
termination_by n
decreasing_by exact Nat.div_lt_self (by omega) (by omega)

theorem natChars_lt {n : Nat} (h : n < 10) : natChars n = [Nat.digitChar n] := by
  rw [natChars, dif_pos h]

theorem natChars_ge {n : Nat} (h : ¬ n < 10) :
    natChars n = natChars (n / 10) ++ [Nat.digitChar (n % 10)] := by
  rw [natChars, dif_neg h]

theorem toDigitsCore_eq_natChars :
    ∀ (fuel n : Nat) (ds : List Char), n < fuel →
      Nat.toDigitsCore 10 fuel n ds = natChars n ++ ds := by
  intro fuel
  induction fuel with
  | zero => intro n ds h; omega
  | succ fuel ih =>
      intro n ds h
      show (if n / 10 = 0 then Nat.digitChar (n % 10) :: ds
            else Nat.toDigitsCore 10 fuel (n / 10) (Nat.digitChar (n % 10) :: ds)) =
          natChars n ++ ds
      by_cases h10 : n / 10 = 0
      · have hlt : n < 10 := by omega
        rw [if_pos h10, natChars_lt hlt, Nat.mod_eq_of_lt hlt]
        rfl
      · have hge : ¬ n < 10 := by
          intro hc
          exact h10 (Nat.div_eq_of_lt hc)
        have hlt : n / 10 < fuel := by
          have h0 := Nat.div_lt_self (show 0 < n by omega) (by omega : 1 < 10)
          omega
        rw [if_neg h10, ih (n / 10) _ hlt, natChars_ge hge, List.append_assoc]
        rfl

theorem nat_repr_data (n : Nat) : (Nat.repr n).data = natChars n := by
  show (Nat.toDigits 10 n).asString.data = natChars n
  show Nat.toDigitsCore 10 (n + 1) n [] = natChars n
  rw [toDigitsCore_eq_natChars (n + 1) n [] (Nat.lt_succ_self n),
    List.append_nil]

theorem natChars_ne_nil (n : Nat) : natChars n ≠ [] := by
  by_cases h : n < 10
  · rw [natChars_lt h]; simp
  · rw [natChars_ge h]; simp

theorem digitChar_inj_lt :
    ∀ a : Nat, a < 10 → ∀ b : Nat, b < 10 →
      Nat.digitChar a = Nat.digitChar b → a = b := by decide

theorem natChars_inj : ∀ m n : Nat, natChars m = natChars n → m = n := by
  intro m
  induction m using Nat.strong_induction_on with
  | _ m ih =>
    intro n h
    by_cases hm : m < 10 <;> by_cases hn : n < 10
    · rw [natChars_lt hm, natChars_lt hn] at h
      exact digitChar_inj_lt m hm n hn (List.singleton_injective h)
    · rw [natChars_lt hm, natChars_ge hn] at h
      have hlen := congrArg List.length h
      simp only [List.length_singleton, List.length_append] at hlen
      have := List.length_pos.mpr (natChars_ne_nil (n / 10))
      omega
    · rw [natChars_ge hm, natChars_lt hn] at h
      have hlen := congrArg List.length h
      simp only [List.length_singleton, List.length_append] at hlen
      have := List.length_pos.mpr (natChars_ne_nil (m / 10))
      omega
    · rw [natChars_ge hm, natChars_ge hn] at h
      have hrev := congrArg List.reverse h
      simp only [List.reverse_append, List.reverse_cons, List.reverse_nil,
        List.nil_append, List.singleton_append] at hrev
      have hhead : Nat.digitChar (m % 10) = Nat.digitChar (n % 10) :=
        (List.cons_eq_cons.mp hrev).1
      have htail : (natChars (m / 10)).reverse = (natChars (n / 10)).reverse :=
        (List.cons_eq_cons.mp hrev).2
      have hdiv : m / 10 = n / 10 :=
        ih (m / 10) (Nat.div_lt_self (by omega) (by omega))
          (n / 10) (List.reverse_injective htail)
      have hmod : m % 10 = n % 10 :=
        digitChar_inj_lt _ (Nat.mod_lt _ (by omega)) _ (Nat.mod_lt _ (by omega))
          hhead
      omega

theorem int_toString_data (n : Int) (h : 0 ≤ n) :
    (toString n).data = natChars n.toNat := by
  cases n with
  | ofNat m => exact nat_repr_data m
  | negSucc m => exact absurd h (by simp)

theorem int_toString_inj {n m : Int} (hn : 0 ≤ n) (hm : 0 ≤ m)
    (h : toString n = toString m) : n = m := by
  have hd := congrArg String.data h
  rw [int_toString_data n hn, int_toString_data m hm] at hd
  have := natChars_inj _ _ hd
  omega

theorem take_of_append {p x : List Char} (k : Nat) (hk : k ≤ p.length) :
    (p ++ x).take k = p.take k :=
  List.take_append_of_le_length hk

theorem rev_take_of_append {x s : List Char} (k : Nat) (hk : k ≤ s.length) :
    ((x ++ s).reverse.take k) = s.reverse.take k := by
  rw [List.reverse_append]
  exact take_of_append k (by simpa using hk)

theorem strNe_of_rev_take {s1 s2 : String} {k : Nat} {a b : List Char}
    (h1 : s1.data.reverse.take k = a) (h2 : s2.data.reverse.take k = b)
    (hne : a ≠ b) : s1 ≠ s2 := by
  intro h
  subst h
  exact hne (h1.symm.trans h2)

theorem strNe_of_take {s1 s2 : String} {k : Nat} {a b : List Char}
    (h1 : s1.data.take k = a) (h2 : s2.data.take k = b)
    (hne : a ≠ b) : s1 ≠ s2 := by
  intro h
  subst h
  exact hne (h1.symm.trans h2)

theorem str_append_cancel_left {a b c : String} (h : a ++ b = a ++ c) :
    b = c := by
  apply String.ext
  have hd := congrArg String.data h
  simp only [String.data_append] at hd
  exact List.append_cancel_left hd

theorem str_append_cancel_right {a b c : String} (h : a ++ c = b ++ c) :
    a = b := by
  apply String.ext
  have hd := congrArg String.data h
  simp only [String.data_append] at hd
  exact List.append_cancel_right hd

/-- The literal prefix of a rendered `pocketed_in` fact, per tense. -/
def piPre (t : Tense) : String :=
  if t = .future then "The ball will be pocketed in the "
  else if t = .conditional then "The ball would be pocketed in the "
  else "The ball was pocketed in the "

theorem nf_pi (c : String) (t : Tense) :
    renderPocketedIn c t = piPre t ++ c ++ " pocket" := by
  cases t <;> rfl

/-- The literal prefix of a rendered `hits_n_diff_walls` fact, per tense. -/
def diffPre (t : Tense) : String :=
  if t = .future then "The ball will hit "
  else if t = .conditional then "The ball would hit "
  else "The ball hits "

theorem nf_diff (n : Int) (t : Tense) :
    renderHitsDiffWalls n t = diffPre t ++ toString n ++ " different walls" := by
  cases t <;> rfl

/-- The literal prefix of a rendered `hits_same_wall_n_times` fact, per
tense. -/
def samePre (t : Tense) : String :=
  if t = .future then "The ball will hit the same wall "
  else if t = .conditional then "The ball would hit the same wall "
  else "The ball hits the same wall "

theorem nf_same (n : Int) (t : Tense) :
    renderHitsSameWall n t = samePre t ++ toString n ++ " times" := by
  cases t <;> rfl

/-- The literal prefix of a rendered wall-order fact, per order and tense. -/
def wallHitPre (o : Nat) (t : Tense) : String :=
  let pre := if o = 1 then "first" else if o = 2 then "second" else "third"
  let mid :=
    if t = .future then "hit will be"
    else if t = .conditional then "hit would be"
    else "hit was"
  "The " ++ pre ++ " wall " ++ mid ++ " "

theorem nf_wall (o : Nat) (w : String) (t : Tense) :
    renderWallHitOrder o w t = wallHitPre o t ++ w := by
  cases t <;> rfl

theorem rev2_P (t : Tense) : (renderPocketed t).data.reverse.take 2 = ['d', 'e'] := by
  cases t <;> decide

theorem rev2_NP (t : Tense) :
    (renderNotPocketed t).data.reverse.take 2 = ['d', 'e'] := by
  cases t <;> decide

theorem rev2_H0 (t : Tense) :
    (renderHitsNWalls 0 t).data.reverse.take 2 = ['s', 'l'] := by
  cases t <;> decide

theorem rev7_H0 (t : Tense) :
    (renderHitsNWalls 0 t).data.reverse.take 7 = ['s', 'l', 'l', 'a', 'w', ' ', '0'] := by
  cases t <;> decide

theorem rev2_H1 (t : Tense) :
    (renderHitsNWalls 1 t).data.reverse.take 2 = ['l', 'l'] := by
  cases t <;> decide

theorem rev5_H1 (t : Tense) :
    (renderHitsNWalls 1 t).data.reverse.take 5 = ['l', 'l', 'a', 'w', ' '] := by
  cases t <;> decide

theorem rev2_PI (c : String) (t : Tense) :
    (renderPocketedIn c t).data.reverse.take 2 = ['t', 'e'] := by
  rw [nf_pi, String.data_append, rev_take_of_append 2 (by decide)]
  decide

theorem rev2_D (n : Int) (t : Tense) :
    (renderHitsDiffWalls n t).data.reverse.take 2 = ['s', 'l'] := by
  rw [nf_diff, String.data_append, rev_take_of_append 2 (by decide)]
  decide

theorem rev7_D (n : Int) (t : Tense) :
    (renderHitsDiffWalls n t).data.reverse.take 7 = ['s', 'l', 'l', 'a', 'w', ' ', 't'] := by
  rw [nf_diff, String.data_append, rev_take_of_append 7 (by decide)]
  decide

theorem rev2_S (n : Int) (t : Tense) :
    (renderHitsSameWall n t).data.reverse.take 2 = ['s', 'e'] := by
  rw [nf_same, String.data_append, rev_take_of_append 2 (by decide)]
  decide

theorem wallname_rev5 (w : String) (hw : WALL_NAMES.contains w = true) :
    w.data.reverse.take 5 = ['l', 'l', 'a', 'w', '-'] := by
  have hw2 : w ∈ WALL_NAMES := List.elem_iff.mp hw
  simp only [WALL_NAMES, List.mem_cons, List.not_mem_nil, or_false] at hw2
  rcases hw2 with h | h | h | h | h | h <;> subst h <;> decide

theorem rev5_wall (o : Nat) (w : String) (t : Tense)
    (hw : WALL_NAMES.contains w = true) :
    (renderWallHitOrder o w t).data.reverse.take 5 = ['l', 'l', 'a', 'w', '-'] := by
  have hlen : 5 ≤ w.data.length := by
    have hl : (w.data.reverse.take 5).length = 5 := by rw [wallname_rev5 w hw]; rfl
    rw [List.length_take, List.length_reverse] at hl
    rcases Nat.le_total 5 w.data.length with h5 | h5
    · exact h5
    · rw [Nat.min_eq_right h5] at hl; omega
  rw [nf_wall, String.data_append, rev_take_of_append 5 hlen]
  exact wallname_rev5 w hw

theorem rev2_wall (o : Nat) (w : String) (t : Tense)
    (hw : WALL_NAMES.contains w = true) :
    (renderWallHitOrder o w t).data.reverse.take 2 = ['l', 'l'] := by
  have h : (renderWallHitOrder o w t).data.reverse.take (min 2 5) = ['l', 'l'] := by
    rw [← List.take_take, rev5_wall o w t hw]
    decide
  simpa using h

theorem fwd5_wall1 (w : String) (t : Tense) :
    (renderWallHitOrder 1 w t).data.take 5 = "The f".data := by
  rw [nf_wall, String.data_append]
  cases t <;> rw [take_of_append 5 (by decide)] <;> decide

theorem fwd5_wall2 (w : String) (t : Tense) :
    (renderWallHitOrder 2 w t).data.take 5 = "The s".data := by
  rw [nf_wall, String.data_append]
  cases t <;> rw [take_of_append 5 (by decide)] <;> decide

theorem fwd5_wall3 (w : String) (t : Tense) :
    (renderWallHitOrder 3 w t).data.take 5 = "The t".data := by
  rw [nf_wall, String.data_append]
  cases t <;> rw [take_of_append 5 (by decide)] <;> decide

theorem render_P (t : Tense) :
    render ⟨"pocketed", []⟩ t = renderPocketed t := rfl

theorem render_NP (t : Tense) :
    render ⟨"not_pocketed", []⟩ t = renderNotPocketed t := rfl

theorem render_H0 (t : Tense) :
    render ⟨"hits_0_walls", []⟩ t = renderHitsNWalls 0 t := rfl

theorem render_H1 (t : Tense) :
    render ⟨"hits_1_wall", []⟩ t = renderHitsNWalls 1 t := rfl

theorem render_PI (c : String) (t : Tense) :
    render ⟨"pocketed_in", [.str c]⟩ t = renderPocketedIn c t := rfl

theorem render_D (n : Int) (t : Tense) :
    render ⟨"hits_n_diff_walls", [.int n]⟩ t = renderHitsDiffWalls n t := rfl

theorem render_S (n : Int) (t : Tense) :
    render ⟨"hits_same_wall_n_times", [.int n]⟩ t = renderHitsSameWall n t := rfl

theorem render_F1 (w : String) (t : Tense) :
    render ⟨"first_wall_hit", [.str w]⟩ t = renderWallHitOrder 1 w t := rfl

theorem render_F2 (w : String) (t : Tense) :
    render ⟨"second_wall_hit", [.str w]⟩ t = renderWallHitOrder 2 w t := rfl

theorem render_F3 (w : String) (t : Tense) :
    render ⟨"third_wall_hit", [.str w]⟩ t = renderWallHitOrder 3 w t := rfl

theorem pi_inj {c c2 : String} {t : Tense}
    (h : renderPocketedIn c t = renderPocketedIn c2 t) : c = c2 := by
  rw [nf_pi, nf_pi] at h
  exact str_append_cancel_left (str_append_cancel_right h)

theorem diff_inj {n m : Int} {t : Tense} (hn : 2 ≤ n) (hm : 2 ≤ m)
    (h : renderHitsDiffWalls n t = renderHitsDiffWalls m t) : n = m := by
  rw [nf_diff, nf_diff] at h
  exact int_toString_inj (by omega) (by omega)
    (str_append_cancel_left (str_append_cancel_right h))

theorem same_inj {n m : Int} {t : Tense} (hn : 2 ≤ n) (hm : 2 ≤ m)
    (h : renderHitsSameWall n t = renderHitsSameWall m t) : n = m := by
  rw [nf_same, nf_same] at h
  exact int_toString_inj (by omega) (by omega)
    (str_append_cancel_left (str_append_cancel_right h))

theorem wall_inj (o : Nat) {w w2 : String} {t : Tense}
    (h : renderWallHitOrder o w t = renderWallHitOrder o w2 t) : w = w2 := by
  rw [nf_wall, nf_wall] at h
  exact str_append_cancel_left h

theorem argsOneStr_eq {l : List OptionArg} {c : String}
    (h : argsOneStr l = some c) : l = [.str c] := by
  unfold argsOneStr at h
  split at h
  · next s => injection h with h2; rw [h2]
  · exact absurd h (by simp)

theorem argsOneInt_eq {l : List OptionArg} {n : Int}
    (h : argsOneInt l = some n) : l = [.int n] := by
  unfold argsOneInt at h
  split at h
  · next m => injection h with h2; rw [h2]
  · exact absurd h (by simp)

theorem pocketColorOk_shape {l : List OptionArg} (h : pocketColorOk l = true) :
    ∃ c, POCKET_COLORS.contains c = true ∧ l = [.str c] := by
  unfold pocketColorOk at h
  split at h
  · next c hc => exact ⟨c, h, argsOneStr_eq hc⟩
  · exact absurd h (by decide)

theorem countOk_shape {l : List OptionArg} (h : countOk l = true) :
    ∃ n, 2 ≤ n ∧ l = [.int n] := by
  unfold countOk at h
  split at h
  · next n hn => exact ⟨n, of_decide_eq_true h, argsOneInt_eq hn⟩
  · exact absurd h (by decide)

theorem wallNameOk_shape {l : List OptionArg} (h : wallNameOk l = true) :
    ∃ w, WALL_NAMES.contains w = true ∧ l = [.str w] := by
  unfold wallNameOk at h
  split at h
  · next w hw => exact ⟨w, h, argsOneStr_eq hw⟩
  · exact absurd h (by decide)

theorem vocab_shape {f : OptionFact} (hf : vocabFact f = true) :
    f = ⟨"pocketed", []⟩ ∨ f = ⟨"not_pocketed", []⟩ ∨
    f = ⟨"hits_0_walls", []⟩ ∨ f = ⟨"hits_1_wall", []⟩ ∨
    (∃ c, POCKET_COLORS.contains c = true ∧ f = ⟨"pocketed_in", [.str c]⟩) ∨
    (∃ n, 2 ≤ n ∧ f = ⟨"hits_n_diff_walls", [.int n]⟩) ∨
    (∃ n, 2 ≤ n ∧ f = ⟨"hits_same_wall_n_times", [.int n]⟩) ∨
    (∃ w, WALL_NAMES.contains w = true ∧ f = ⟨"first_wall_hit", [.str w]⟩) ∨
    (∃ w, WALL_NAMES.contains w = true ∧ f = ⟨"second_wall_hit", [.str w]⟩) ∨
    (∃ w, WALL_NAMES.contains w = true ∧ f = ⟨"third_wall_hit", [.str w]⟩) := by
  obtain ⟨k, a⟩ := f
  simp only [vocabFact, Bool.or_eq_true, Bool.and_eq_true, beq_iff_eq,
    List.isEmpty_iff] at hf
  rcases hf with ((((((((⟨hk, ha⟩ | ⟨hk, ha⟩) | ⟨hk, ha⟩) | ⟨hk, ha⟩) |
    ⟨hk, ha⟩) | ⟨hk, ha⟩) | ⟨hk, ha⟩) | ⟨hk, ha⟩) | ⟨hk, ha⟩) | ⟨hk, ha⟩
  · subst hk; subst ha; exact Or.inl rfl
  · subst hk; subst ha; exact Or.inr (Or.inl rfl)
  · subst hk; subst ha; exact Or.inr (Or.inr (Or.inl rfl))
  · subst hk; subst ha; exact Or.inr (Or.inr (Or.inr (Or.inl rfl)))
  · subst hk
    obtain ⟨c, hc, hl⟩ := pocketColorOk_shape ha
    subst hl
    exact Or.inr (Or.inr (Or.inr (Or.inr (Or.inl ⟨c, hc, rfl⟩))))
  · subst hk
    obtain ⟨n, hn, hl⟩ := countOk_shape ha
    subst hl
    exact Or.inr (Or.inr (Or.inr (Or.inr (Or.inr (Or.inl ⟨n, hn, rfl⟩)))))
  · subst hk
    obtain ⟨n, hn, hl⟩ := countOk_shape ha
    subst hl
    exact Or.inr (Or.inr (Or.inr (Or.inr (Or.inr (Or.inr
      (Or.inl ⟨n, hn, rfl⟩))))))
  · subst hk
    obtain ⟨w, hw, hl⟩ := wallNameOk_shape ha
    subst hl
    exact Or.inr (Or.inr (Or.inr (Or.inr (Or.inr (Or.inr (Or.inr
      (Or.inl ⟨w, hw, rfl⟩)))))))
  · subst hk
    obtain ⟨w, hw, hl⟩ := wallNameOk_shape ha
    subst hl
    exact Or.inr (Or.inr (Or.inr (Or.inr (Or.inr (Or.inr (Or.inr (Or.inr
      (Or.inl ⟨w, hw, rfl⟩))))))))
  · subst hk
    obtain ⟨w, hw, hl⟩ := wallNameOk_shape ha
    subst hl
    exact Or.inr (Or.inr (Or.inr (Or.inr (Or.inr (Or.inr (Or.inr (Or.inr
      (Or.inr ⟨w, hw, rfl⟩))))))))

theorem render_inj_on_vocab (t : Tense) {f g : OptionFact}
    (hf : vocabFact f = true) (hg : vocabFact g = true)
    (heq : render f t = render g t) : f = g := by
  rcases vocab_shape hf with hf1 | hf1 | hf1 | hf1 | ⟨c, hc, hf1⟩ |
    ⟨n, hn, hf1⟩ | ⟨n, hn, hf1⟩ | ⟨w, hw, hf1⟩ | ⟨w, hw, hf1⟩ | ⟨w, hw, hf1⟩ <;>
  rcases vocab_shape hg with hg1 | hg1 | hg1 | hg1 | ⟨c2, hc2, hg1⟩ |
    ⟨m, hm, hg1⟩ | ⟨m, hm, hg1⟩ | ⟨w2, hw2, hg1⟩ | ⟨w2, hw2, hg1⟩ | ⟨w2, hw2, hg1⟩ <;>
  subst hf1 <;> subst hg1 <;>
  simp only [render_P, render_NP, render_H0, render_H1, render_PI, render_D,
    render_S, render_F1, render_F2, render_F3] at heq
  · rfl
  · cases t <;> exact absurd heq (by decide)
  · exact absurd heq (strNe_of_rev_take (rev2_P t) (rev2_H0 t) (by decide))
  · exact absurd heq (strNe_of_rev_take (rev2_P t) (rev2_H1 t) (by decide))
  · exact absurd heq (strNe_of_rev_take (rev2_P t) (rev2_PI c2 t) (by decide))
  · exact absurd heq (strNe_of_rev_take (rev2_P t) (rev2_D m t) (by decide))
  · exact absurd heq (strNe_of_rev_take (rev2_P t) (rev2_S m t) (by decide))
  · exact absurd heq (strNe_of_rev_take (rev2_P t) (rev2_wall 1 w2 t hw2) (by decide))
  · exact absurd heq (strNe_of_rev_take (rev2_P t) (rev2_wall 2 w2 t hw2) (by decide))
  · exact absurd heq (strNe_of_rev_take (rev2_P t) (rev2_wall 3 w2 t hw2) (by decide))
  · cases t <;> exact absurd heq (by decide)
  · rfl
  · exact absurd heq (strNe_of_rev_take (rev2_NP t) (rev2_H0 t) (by decide))
  · exact absurd heq (strNe_of_rev_take (rev2_NP t) (rev2_H1 t) (by decide))
  · exact absurd heq (strNe_of_rev_take (rev2_NP t) (rev2_PI c2 t) (by decide))
  · exact absurd heq (strNe_of_rev_take (rev2_NP t) (rev2_D m t) (by decide))
  · exact absurd heq (strNe_of_rev_take (rev2_NP t) (rev2_S m t) (by decide))
  · exact absurd heq (strNe_of_rev_take (rev2_NP t) (rev2_wall 1 w2 t hw2) (by decide))
  · exact absurd heq (strNe_of_rev_take (rev2_NP t) (rev2_wall 2 w2 t hw2) (by decide))
  · exact absurd heq (strNe_of_rev_take (rev2_NP t) (rev2_wall 3 w2 t hw2) (by decide))
  · exact absurd heq (strNe_of_rev_take (rev2_H0 t) (rev2_P t) (by decide))
  · exact absurd heq (strNe_of_rev_take (rev2_H0 t) (rev2_NP t) (by decide))
  · rfl
  · exact absurd heq (strNe_of_rev_take (rev2_H0 t) (rev2_H1 t) (by decide))
  · exact absurd heq (strNe_of_rev_take (rev2_H0 t) (rev2_PI c2 t) (by decide))
  · exact absurd heq (strNe_of_rev_take (rev7_H0 t) (rev7_D m t) (by decide))
  · exact absurd heq (strNe_of_rev_take (rev2_H0 t) (rev2_S m t) (by decide))
  · exact absurd heq (strNe_of_rev_take (rev2_H0 t) (rev2_wall 1 w2 t hw2) (by decide))
  · exact absurd heq (strNe_of_rev_take (rev2_H0 t) (rev2_wall 2 w2 t hw2) (by decide))
  · exact absurd heq (strNe_of_rev_take (rev2_H0 t) (rev2_wall 3 w2 t hw2) (by decide))
  · exact absurd heq (strNe_of_rev_take (rev2_H1 t) (rev2_P t) (by decide))
  · exact absurd heq (strNe_of_rev_take (rev2_H1 t) (rev2_NP t) (by decide))
  · exact absurd heq (strNe_of_rev_take (rev2_H1 t) (rev2_H0 t) (by decide))
  · rfl
  · exact absurd heq (strNe_of_rev_take (rev2_H1 t) (rev2_PI c2 t) (by decide))
  · exact absurd heq (strNe_of_rev_take (rev2_H1 t) (rev2_D m t) (by decide))
  · exact absurd heq (strNe_of_rev_take (rev2_H1 t) (rev2_S m t) (by decide))
  · exact absurd heq (strNe_of_rev_take (rev5_H1 t) (rev5_wall 1 w2 t hw2) (by decide))
  · exact absurd heq (strNe_of_rev_take (rev5_H1 t) (rev5_wall 2 w2 t hw2) (by decide))
  · exact absurd heq (strNe_of_rev_take (rev5_H1 t) (rev5_wall 3 w2 t hw2) (by decide))
  · exact absurd heq (strNe_of_rev_take (rev2_PI c t) (rev2_P t) (by decide))
  · exact absurd heq (strNe_of_rev_take (rev2_PI c t) (rev2_NP t) (by decide))
  · exact absurd heq (strNe_of_rev_take (rev2_PI c t) (rev2_H0 t) (by decide))
  · exact absurd heq (strNe_of_rev_take (rev2_PI c t) (rev2_H1 t) (by decide))
  · exact congrArg (fun s => OptionFact.mk "pocketed_in" [OptionArg.str s]) (pi_inj heq)
  · exact absurd heq (strNe_of_rev_take (rev2_PI c t) (rev2_D m t) (by decide))
  · exact absurd heq (strNe_of_rev_take (rev2_PI c t) (rev2_S m t) (by decide))
  · exact absurd heq (strNe_of_rev_take (rev2_PI c t) (rev2_wall 1 w2 t hw2) (by decide))
  · exact absurd heq (strNe_of_rev_take (rev2_PI c t) (rev2_wall 2 w2 t hw2) (by decide))
  · exact absurd heq (strNe_of_rev_take (rev2_PI c t) (rev2_wall 3 w2 t hw2) (by decide))
  · exact absurd heq (strNe_of_rev_take (rev2_D n t) (rev2_P t) (by decide))
  · exact absurd heq (strNe_of_rev_take (rev2_D n t) (rev2_NP t) (by decide))
  · exact absurd heq (strNe_of_rev_take (rev7_D n t) (rev7_H0 t) (by decide))
  · exact absurd heq (strNe_of_rev_take (rev2_D n t) (rev2_H1 t) (by decide))
  · exact absurd heq (strNe_of_rev_take (rev2_D n t) (rev2_PI c2 t) (by decide))
  · exact congrArg (fun j => OptionFact.mk "hits_n_diff_walls" [OptionArg.int j]) (diff_inj hn hm heq)
  · exact absurd heq (strNe_of_rev_take (rev2_D n t) (rev2_S m t) (by decide))
  · exact absurd heq (strNe_of_rev_take (rev2_D n t) (rev2_wall 1 w2 t hw2) (by decide))
  · exact absurd heq (strNe_of_rev_take (rev2_D n t) (rev2_wall 2 w2 t hw2) (by decide))
  · exact absurd heq (strNe_of_rev_take (rev2_D n t) (rev2_wall 3 w2 t hw2) (by decide))
  · exact absurd heq (strNe_of_rev_take (rev2_S n t) (rev2_P t) (by decide))
  · exact absurd heq (strNe_of_rev_take (rev2_S n t) (rev2_NP t) (by decide))
  · exact absurd heq (strNe_of_rev_take (rev2_S n t) (rev2_H0 t) (by decide))
  · exact absurd heq (strNe_of_rev_take (rev2_S n t) (rev2_H1 t) (by decide))
  · exact absurd heq (strNe_of_rev_take (rev2_S n t) (rev2_PI c2 t) (by decide))
  · exact absurd heq (strNe_of_rev_take (rev2_S n t) (rev2_D m t) (by decide))
  · exact congrArg (fun j => OptionFact.mk "hits_same_wall_n_times" [OptionArg.int j]) (same_inj hn hm heq)
  · exact absurd heq (strNe_of_rev_take (rev2_S n t) (rev2_wall 1 w2 t hw2) (by decide))
  · exact absurd heq (strNe_of_rev_take (rev2_S n t) (rev2_wall 2 w2 t hw2) (by decide))
  · exact absurd heq (strNe_of_rev_take (rev2_S n t) (rev2_wall 3 w2 t hw2) (by decide))
  · exact absurd heq (strNe_of_rev_take (rev2_wall 1 w t hw) (rev2_P t) (by decide))
  · exact absurd heq (strNe_of_rev_take (rev2_wall 1 w t hw) (rev2_NP t) (by decide))
  · exact absurd heq (strNe_of_rev_take (rev2_wall 1 w t hw) (rev2_H0 t) (by decide))
  · exact absurd heq (strNe_of_rev_take (rev5_wall 1 w t hw) (rev5_H1 t) (by decide))
  · exact absurd heq (strNe_of_rev_take (rev2_wall 1 w t hw) (rev2_PI c2 t) (by decide))
  · exact absurd heq (strNe_of_rev_take (rev2_wall 1 w t hw) (rev2_D m t) (by decide))
  · exact absurd heq (strNe_of_rev_take (rev2_wall 1 w t hw) (rev2_S m t) (by decide))
  · exact congrArg (fun s => OptionFact.mk "first_wall_hit" [OptionArg.str s]) (wall_inj 1 heq)
  · exact absurd heq (strNe_of_take (fwd5_wall1 w t) (fwd5_wall2 w2 t) (by decide))
  · exact absurd heq (strNe_of_take (fwd5_wall1 w t) (fwd5_wall3 w2 t) (by decide))
  · exact absurd heq (strNe_of_rev_take (rev2_wall 2 w t hw) (rev2_P t) (by decide))
  · exact absurd heq (strNe_of_rev_take (rev2_wall 2 w t hw) (rev2_NP t) (by decide))
  · exact absurd heq (strNe_of_rev_take (rev2_wall 2 w t hw) (rev2_H0 t) (by decide))
  · exact absurd heq (strNe_of_rev_take (rev5_wall 2 w t hw) (rev5_H1 t) (by decide))
  · exact absurd heq (strNe_of_rev_take (rev2_wall 2 w t hw) (rev2_PI c2 t) (by decide))
  · exact absurd heq (strNe_of_rev_take (rev2_wall 2 w t hw) (rev2_D m t) (by decide))
  · exact absurd heq (strNe_of_rev_take (rev2_wall 2 w t hw) (rev2_S m t) (by decide))
  · exact absurd heq (strNe_of_take (fwd5_wall2 w t) (fwd5_wall1 w2 t) (by decide))
  · exact congrArg (fun s => OptionFact.mk "second_wall_hit" [OptionArg.str s]) (wall_inj 2 heq)
  · exact absurd heq (strNe_of_take (fwd5_wall2 w t) (fwd5_wall3 w2 t) (by decide))
  · exact absurd heq (strNe_of_rev_take (rev2_wall 3 w t hw) (rev2_P t) (by decide))
  · exact absurd heq (strNe_of_rev_take (rev2_wall 3 w t hw) (rev2_NP t) (by decide))
  · exact absurd heq (strNe_of_rev_take (rev2_wall 3 w t hw) (rev2_H0 t) (by decide))
  · exact absurd heq (strNe_of_rev_take (rev5_wall 3 w t hw) (rev5_H1 t) (by decide))
  · exact absurd heq (strNe_of_rev_take (rev2_wall 3 w t hw) (rev2_PI c2 t) (by decide))
  · exact absurd heq (strNe_of_rev_take (rev2_wall 3 w t hw) (rev2_D m t) (by decide))
  · exact absurd heq (strNe_of_rev_take (rev2_wall 3 w t hw) (rev2_S m t) (by decide))
  · exact absurd heq (strNe_of_take (fwd5_wall3 w t) (fwd5_wall1 w2 t) (by decide))
  · exact absurd heq (strNe_of_take (fwd5_wall3 w t) (fwd5_wall2 w2 t) (by decide))
  · exact congrArg (fun s => OptionFact.mk "third_wall_hit" [OptionArg.str s]) (wall_inj 3 heq)

theorem dedupLabeled_sublist (seen : List OptionFact)
    (l : List (OptionFact × Bool)) : (dedupLabeled seen l).Sublist l := by
  induction l generalizing seen with
  | nil => simp [dedupLabeled]
  | cons q rest ih =>
      rw [dedupLabeled]
      by_cases hq : q.1 ∈ seen
      · rw [if_pos hq]; exact (ih seen).cons q
      · rw [if_neg hq]; exact (ih (q.1 :: seen)).cons₂ q

theorem mem_of_mem_dedupLabeled {seen : List OptionFact}
    {l : List (OptionFact × Bool)} {p : OptionFact × Bool}
    (h : p ∈ dedupLabeled seen l) : p ∈ l :=
  (dedupLabeled_sublist seen l).mem h

theorem dedupLabeled_fst_nodup (seen : List OptionFact) :
    ∀ l : List (OptionFact × Bool),
      ((dedupLabeled seen l).map Prod.fst).Nodup ∧
        ∀ p ∈ dedupLabeled seen l, p.1 ∉ seen := by
  intro l
  induction l generalizing seen with
  | nil => simp [dedupLabeled]
  | cons q rest ih =>
      rw [dedupLabeled]
      by_cases hq : q.1 ∈ seen
      · rw [if_pos hq]; exact ih seen
      · rw [if_neg hq]
        obtain ⟨hnd, hdis⟩ := ih (q.1 :: seen)
        refine ⟨?_, ?_⟩
        · rw [List.map_cons, List.nodup_cons]
          refine ⟨?_, hnd⟩
          intro hmem
          obtain ⟨p, hp, hp1⟩ := List.mem_map.mp hmem
          exact (hdis p hp) (hp1 ▸ List.mem_cons_self _ _)
        · intro p hp
          rcases List.mem_cons.mp hp with h1 | h1
          · rw [h1]; exact hq
          · exact fun hs => (hdis p h1) (List.mem_cons_of_mem _ hs)

theorem dedupLabeled_congr {s1 s2 : List OptionFact}
    (hs : ∀ x, x ∈ s1 ↔ x ∈ s2) :
    ∀ l : List (OptionFact × Bool), dedupLabeled s1 l = dedupLabeled s2 l := by
  intro l
  induction l generalizing s1 s2 with
  | nil => simp [dedupLabeled]
  | cons q rest ih =>
      rw [dedupLabeled, dedupLabeled]
      by_cases hq : q.1 ∈ s1
      · rw [if_pos hq, if_pos ((hs q.1).mp hq)]
        exact ih hs
      · rw [if_neg hq, if_neg (fun h => hq ((hs q.1).mpr h))]
        refine congrArg _ (ih ?_)
        intro x
        simp only [List.mem_cons]
        exact or_congr Iff.rfl (hs x)

theorem dedupLabeled_true_block :
    ∀ (ct : List OptionFact) (seen : List OptionFact)
      (rest : List (OptionFact × Bool)), ct.Nodup → (∀ x ∈ ct, x ∉ seen) →
      dedupLabeled seen (ct.map (fun f => (f, true)) ++ rest) =
        ct.map (fun f => (f, true)) ++ dedupLabeled (ct.reverse ++ seen) rest := by
  intro ct
  induction ct with
  | nil => intro seen rest _ _; simp
  | cons c ct ih =>
      intro seen rest hnd hdis
      obtain ⟨hc, hct⟩ := List.nodup_cons.mp hnd
      simp only [List.map_cons, List.cons_append]
      rw [dedupLabeled, if_neg (hdis c (List.mem_cons_self _ _))]
      rw [ih (c :: seen) rest hct ?hdis2]
      case hdis2 =>
        intro x hx
        simp only [List.mem_cons]
        rintro (h1 | h1)
        · exact hc (h1 ▸ hx)
        · exact hdis x (List.mem_cons_of_mem _ hx) h1
      refine congrArg _ (congrArg _ (dedupLabeled_congr ?_ rest))
      intro x
      simp only [List.reverse_cons, List.append_assoc, List.mem_append,
        List.mem_cons, List.mem_reverse, List.mem_singleton]
      tauto

theorem countP_dedupLabeled_false (seen : List OptionFact)
    (ds : List OptionFact) :
    (dedupLabeled seen (ds.map (fun f => (f, false)))).countP
      (fun p => p.2) = 0 := by
  have hle := (dedupLabeled_sublist seen (ds.map (fun f => (f, false)))).countP_le
    (fun p => p.2)
  have h0 : (ds.map (fun f => (f, false))).countP (fun p => p.2) = 0 := by
    rw [List.countP_map]
    simp [Function.comp]
  omega

theorem length_filter_enumFrom (l : List (OptionFact × Bool)) :
    ∀ n : Nat, ((l.enumFrom n).filter (fun p => p.2.2)).length =
      l.countP (fun p => p.2) := by
  induction l with
  | nil => intro n; simp
  | cons a l ih =>
      intro n
      rw [List.enumFrom_cons, List.filter_cons, List.countP_cons]
      by_cases ha : a.2 = true
      · rw [if_pos ha, List.length_cons, ih (n + 1)]
        simp [ha]
      · rw [if_neg ha, ih (n + 1)]
        simp [ha]

theorem ground_truth_length (r3 : List (OptionFact × Bool)) :
    ((r3.enum.filter (fun p => p.2.2)).map (fun p => p.1)).length =
      r3.countP (fun p => p.2) := by
  rw [List.length_map]
  exact length_filter_enumFrom r3 0

theorem random_sample_subset {items r : List OptionFact} {k : Int}
    (hr : r.Perm items) : ∀ x ∈ random_sample items k r, x ∈ items := by
  intro x hx
  unfold random_sample at hx
  split_ifs at hx with h1 h2
  · simp at hx
  · exact hx
  · exact hr.subset (List.take_subset _ _ hx)

theorem random_sample_length_eq {items r : List OptionFact} {k : Int}
    (hr : r.Perm items) (h1 : 0 < k) (h2 : k ≤ (items.length : Int)) :
    (random_sample items k r).length = k.toNat := by
  unfold random_sample
  rw [if_neg (by omega)]
  by_cases h3 : (items.length : Int) ≤ k
  · rw [if_pos h3]
    omega
  · rw [if_neg h3, List.length_take, hr.length_eq]
    omega

theorem random_sample_nodup {items r : List OptionFact} {k : Int}
    (hr : r.Perm items) (hnd : items.Nodup) :
    (random_sample items k r).Nodup := by
  unfold random_sample
  split_ifs
  · exact List.nodup_nil
  · exact hnd
  · exact List.Nodup.sublist (List.take_sublist _ _) (hr.nodup_iff.mpr hnd)

theorem random_sample_ne_nil {items r : List OptionFact} {k : Int}
    (hr : r.Perm items) (h1 : 0 < k) (hne : items ≠ []) :
    random_sample items k r ≠ [] := by
  unfold random_sample
  rw [if_neg (by omega)]
  by_cases h3 : (items.length : Int) ≤ k
  · rw [if_pos h3]; exact hne
  · rw [if_neg h3]
    intro hcon
    rcases List.take_eq_nil_iff.mp hcon with h | h
    · omega
    · rw [h] at hr
      exact hne hr.symm.eq_nil

theorem trueFactsOrDefault_ne_nil (tf : List OptionFact) :
    trueFactsOrDefault tf ≠ [] := by
  unfold trueFactsOrDefault
  split_ifs with h
  · simp
  · simpa [List.isEmpty_iff] using h

theorem clampedNumCorrect_pos (tf : List OptionFact) (total nc : Int) :
    0 < clampedNumCorrect tf total nc := by
  have := le_max_left 1 (min nc (min ((trueFactsOrDefault tf).length : Int) total))
  unfold clampedNumCorrect
  omega

theorem clampedNumCorrect_le_length (tf : List OptionFact) (total nc : Int) :
    clampedNumCorrect tf total nc ≤ ((trueFactsOrDefault tf).length : Int) := by
  have hpos : 0 < (trueFactsOrDefault tf).length :=
    List.length_pos.mpr (trueFactsOrDefault_ne_nil tf)
  unfold clampedNumCorrect
  refine max_le (by exact_mod_cast hpos) ?_
  exact le_trans (min_le_right _ _) (min_le_left _ _)

theorem chosenTrue_length {tf r1 : List OptionFact} {total nc : Int}
    (hr1 : r1.Perm (trueFactsOrDefault tf)) :
    (chosenTrue tf total nc r1).length =
      (clampedNumCorrect tf total nc).toNat :=
  random_sample_length_eq hr1 (clampedNumCorrect_pos tf total nc)
    (clampedNumCorrect_le_length tf total nc)

theorem chosenTrue_subset {tf r1 : List OptionFact} {total nc : Int}
    (hr1 : r1.Perm (trueFactsOrDefault tf)) :
    ∀ x ∈ chosenTrue tf total nc r1, x ∈ trueFactsOrDefault tf :=
  random_sample_subset hr1

theorem chosenTrue_nodup {tf r1 : List OptionFact} {total nc : Int}
    (hr1 : r1.Perm (trueFactsOrDefault tf))
    (hnd : (trueFactsOrDefault tf).Nodup) :
    (chosenTrue tf total nc r1).Nodup :=
  random_sample_nodup hr1 hnd

theorem chosenTrue_ne_nil {tf r1 : List OptionFact} {total nc : Int}
    (hr1 : r1.Perm (trueFactsOrDefault tf)) :
    chosenTrue tf total nc r1 ≠ [] :=
  random_sample_ne_nil hr1 (clampedNumCorrect_pos tf total nc)
    (trueFactsOrDefault_ne_nil tf)

theorem sampledDistractors_subset {tf pool r1 r2 : List OptionFact}
    {total nc : Int}
    (hr2 : r2.Perm (distractorCandidates tf pool total nc r1)) :
    ∀ x ∈ sampledDistractors tf pool total nc r1 r2, x ∈ pool := by
  intro x hx
  have hmem := random_sample_subset hr2 x hx
  exact List.mem_of_mem_filter hmem

theorem countP_dedupedLabeled_true {tf pool r1 r2 : List OptionFact}
    {total nc : Int}
    (hr1 : r1.Perm (trueFactsOrDefault tf))
    (hnd : (trueFactsOrDefault tf).Nodup) :
    (dedupedLabeled tf pool total nc r1 r2).countP (fun p => p.2) =
      (clampedNumCorrect tf total nc).toNat := by
  unfold dedupedLabeled labeledFacts
  rw [dedupLabeled_true_block (chosenTrue tf total nc r1) [] _
    (chosenTrue_nodup hr1 hnd) (by simp)]
  rw [List.countP_append, countP_dedupLabeled_false, List.countP_map]
  rw [← @chosenTrue_length tf r1 total nc hr1]
  simp [Function.comp]

theorem countP_dedupedLabeled_pos (tf pool r1 r2 : List OptionFact)
    (total nc : Int)
    (hr1 : r1.Perm (trueFactsOrDefault tf)) :
    0 < (dedupedLabeled tf pool total nc r1 r2).countP (fun p => p.2) := by
  unfold dedupedLabeled labeledFacts
  rcases hc : chosenTrue tf total nc r1 with _ | ⟨c, ct⟩
  · exact absurd hc (chosenTrue_ne_nil hr1)
  · rw [List.map_cons, List.cons_append, dedupLabeled,
      if_neg (List.not_mem_nil _), List.countP_cons]
    simp

theorem mem_dedupedLabeled_src {tf pool r1 r2 : List OptionFact}
    {total nc : Int} {p : OptionFact × Bool}
    (hr2 : r2.Perm (distractorCandidates tf pool total nc r1))
    (hp : p ∈ dedupedLabeled tf pool total nc r1 r2) :
    p.1 ∈ trueFactsOrDefault tf ∨ p.1 ∈ pool ∨
      p.1 ∈ chosenTrue tf total nc r1 := by
  have hmem := mem_of_mem_dedupLabeled hp
  unfold labeledFacts at hmem
  rcases List.mem_append.mp hmem with h | h
  · obtain ⟨f, hf, hfe⟩ := List.mem_map.mp h
    exact Or.inr (Or.inr (by rw [← hfe]; exact hf))
  · obtain ⟨f, hf, hfe⟩ := List.mem_map.mp h
    exact Or.inr (Or.inl (by rw [← hfe]; exact sampledDistractors_subset hr2 f hf))

theorem mem_dedupFacts {x : OptionFact} :
    ∀ (seen l : List OptionFact), x ∈ dedupFacts seen l ↔ x ∈ l ∧ x ∉ seen := by
  intro seen l
  induction l generalizing seen with
  | nil => simp [dedupFacts]
  | cons f rest ih =>
      rw [dedupFacts]
      by_cases hf : f ∈ seen
      · rw [if_pos hf, ih seen, List.mem_cons]
        constructor
        · rintro ⟨h1, h2⟩; exact ⟨Or.inr h1, h2⟩
        · rintro ⟨h1 | h1, h2⟩
          · exact absurd hf (h1 ▸ h2)
          · exact ⟨h1, h2⟩
      · rw [if_neg hf, List.mem_cons, List.mem_cons, ih (f :: seen)]
        constructor
        · rintro (h1 | ⟨h1, h2⟩)
          · exact ⟨Or.inl h1, h1 ▸ hf⟩
          · exact ⟨Or.inr h1, fun hs => h2 (List.mem_cons_of_mem _ hs)⟩
        · rintro ⟨h1 | h1, h2⟩
          · exact Or.inl h1
          · by_cases hx : x = f
            · exact Or.inl hx
            · exact Or.inr ⟨h1, by simp [hx, h2]⟩

theorem mem_facts_from_outcome {x : OptionFact} {o : Outcomes} :
    x ∈ facts_from_outcome o ↔
      x ∈ pocketFacts o ++ countFacts o ++ seqFacts o.wall_hits := by
  unfold facts_from_outcome
  rw [mem_dedupFacts]
  simp

theorem countFacts_kinds {o : Outcomes} :
    ∀ x ∈ countFacts o, x.kind = "hits_0_walls" ∨ x.kind = "hits_1_wall" ∨
      x.kind = "hits_n_diff_walls" ∨ x.kind = "hits_same_wall_n_times" := by
  intro x hx
  unfold countFacts at hx
  split_ifs at hx <;> simp_all

theorem seqFacts_kinds :
    ∀ (l : List String) (x : OptionFact), x ∈ seqFacts l →
      x.kind = "first_wall_hit" ∨ x.kind = "second_wall_hit" ∨
        x.kind = "third_wall_hit" := by
  intro l x hx
  match l with
  | [] => simp [seqFacts] at hx
  | [a] =>
      rw [seqFacts] at hx
      simp only [List.mem_singleton] at hx
      subst hx; simp
  | [a, b] =>
      rw [seqFacts] at hx
      simp only [List.mem_cons, List.mem_singleton, List.not_mem_nil,
        or_false] at hx
      rcases hx with h | h <;> subst h <;> simp
  | a :: b :: c :: rest =>
      rw [seqFacts] at hx
      simp only [List.mem_cons, List.mem_singleton, List.not_mem_nil,
        or_false] at hx
      rcases hx with h | h | h <;> subst h <;> simp

theorem pocketFacts_kinds {o : Outcomes} :
    ∀ x ∈ pocketFacts o, x.kind = "pocketed" ∨ x.kind = "pocketed_in" ∨
      x.kind = "not_pocketed" := by
  obtain ⟨hits, wh, pk, pc⟩ := o
  intro x hx
  unfold pocketFacts at hx
  dsimp only at hx
  split_ifs at hx with hp
  · rcases List.mem_cons.mp hx with h | h
    · simp [h]
    · rcases pc with _ | c
      · simp at h
      · simp only at h
        split_ifs at h
        · simp at h; simp [h]
        · simp at h
  · simp at hx; simp [hx]

theorem mem_pocketFacts_pocketed {o : Outcomes}
    (h : OptionFact.mk "pocketed" [] ∈ pocketFacts o) : o.pocketed = true := by
  unfold pocketFacts at h
  split_ifs at h with hp
  · exact hp
  · simp at h

theorem mem_pocketFacts_pocketed_in {o : Outcomes} {c : String}
    (h : OptionFact.mk "pocketed_in" [.str c] ∈ pocketFacts o) :
    o.pocketed = true := by
  unfold pocketFacts at h
  split_ifs at h with hp
  · exact hp
  · simp at h

theorem mem_pocketFacts_not_pocketed {o : Outcomes}
    (h : OptionFact.mk "not_pocketed" [] ∈ pocketFacts o) :
    o.pocketed = false := by
  obtain ⟨hits, wh, pk, pc⟩ := o
  unfold pocketFacts at h
  dsimp only at h
  split_ifs at h with hp
  · rcases List.mem_cons.mp h with h1 | h1
    · simp at h1
    · rcases pc with _ | c
      · simp at h1
      · simp only at h1
        split_ifs at h1 <;> simp at h1
  · simp [hp]

theorem mem_countFacts_hits0 {o : Outcomes}
    (h : OptionFact.mk "hits_0_walls" [] ∈ countFacts o) :
    o.num_wall_hits = 0 := by
  unfold countFacts at h
  split_ifs at h with h0 h1 h2 h3 <;> simp_all

theorem sample_fst (tf pool : List OptionFact) (total nc : Int) (tense : Tense)
    (r1 r2 : List OptionFact) (r3 : List (OptionFact × Bool)) :
    (sample_multilabel_from_facts tf pool total nc tense r1 r2 r3).1 =
      r3.map (fun p => render p.1 tense) := rfl

theorem sample_snd (tf pool : List OptionFact) (total nc : Int) (tense : Tense)
    (r1 r2 : List OptionFact) (r3 : List (OptionFact × Bool)) :
    (sample_multilabel_from_facts tf pool total nc tense r1 r2 r3).2 =
      (r3.enum.filter (fun p => p.2.2)).map (fun p => p.1) := rfl

theorem vocab_of_tfa {tf : List OptionFact} {x : OptionFact}
    (hvt : ∀ f ∈ tf, vocabFact f = true) (h : x ∈ trueFactsOrDefault tf) :
    vocabFact x = true := by
  unfold trueFactsOrDefault at h
  split_ifs at h with he
  · simp only [List.mem_singleton] at h
    subst h
    decide
  · exact hvt _ h

/-- C1: on the outcomes dict with num_wall_hits 3 and wall-name sequence
[red-green-wall, blue-purple-wall, red-green-wall] (two unique names), the
extractor emits hits_n_diff_walls with the raw hit count 3 as argument, not
the unique-name count 2 that the spec and the repository's own test
(test_multiple_different_wall_hits_fact) require. -/
theorem claim_C1_eval :
    facts_from_outcome
        ⟨3, ["red-green-wall", "blue-purple-wall", "red-green-wall"],
          false, none⟩ =
      [OptionFact.mk "not_pocketed" [],
       OptionFact.mk "hits_n_diff_walls" [.int 3],
       OptionFact.mk "first_wall_hit" [.str "red-green-wall"],
       OptionFact.mk "second_wall_hit" [.str "blue-purple-wall"],
       OptionFact.mk "third_wall_hit" [.str "red-green-wall"]] ∧
    OptionFact.mk "hits_n_diff_walls" [.int 2] ∉
      facts_from_outcome
        ⟨3, ["red-green-wall", "blue-purple-wall", "red-green-wall"],
          false, none⟩ ∧
    (["red-green-wall", "blue-purple-wall", "red-green-wall"] :
      List String).dedup.length = 2 := by
  decide

/-- C2 counterexample: at num_correct = 0 (with one true fact, total 5, and
a concrete admissible random draw) the sampler marks 1 option correct, not
the min(num_correct, len(true_facts), total) = 0 the claim demands; the
first three conjuncts certify that the supplied draws satisfy the
randomness contracts. -/
theorem claim_C2_counterexample :
    ([OptionFact.mk "not_pocketed" []].Perm
      (trueFactsOrDefault [OptionFact.mk "not_pocketed" []])) ∧
    (([] : List OptionFact).Perm
      (distractorCandidates [OptionFact.mk "not_pocketed" []] [] 5 0
        [OptionFact.mk "not_pocketed" []])) ∧
    ([(OptionFact.mk "not_pocketed" [], true)].Perm
      (dedupedLabeled [OptionFact.mk "not_pocketed" []] [] 5 0
        [OptionFact.mk "not_pocketed" []] [])) ∧
    (sample_multilabel_from_facts [OptionFact.mk "not_pocketed" []] [] 5 0
      .base [OptionFact.mk "not_pocketed" []] []
      [(OptionFact.mk "not_pocketed" [], true)]).2.length = 1 ∧
    min (0 : Int) (min 1 5) = 0 := by
  decide

/-- C2 (amended): the number of options the sampler marks correct is
clamped to max(1, min(num_correct, len(true_facts), total)) — at least one
option is marked correct even when num_correct = 0 or total = 0 — and when
the (defaulted) true-fact list has no duplicates the marked-correct count
equals that clamp exactly, for every admissible random draw. -/
theorem claim_C2 (tf pool r1 r2 : List OptionFact) (total nc : Int)
    (tense : Tense) (r3 : List (OptionFact × Bool))
    (hr1 : r1.Perm (trueFactsOrDefault tf))
    (hnd : (trueFactsOrDefault tf).Nodup)
    (hr3 : r3.Perm (dedupedLabeled tf pool total nc r1 r2)) :
    ((sample_multilabel_from_facts tf pool total nc tense r1 r2 r3).2.length
        : Int) =
      max 1 (min nc (min ((trueFactsOrDefault tf).length : Int) total)) := by
  rw [sample_snd, ground_truth_length, hr3.countP_eq,
    countP_dedupedLabeled_true hr1 hnd]
  have hdef : clampedNumCorrect tf total nc =
      max 1 (min nc (min ((trueFactsOrDefault tf).length : Int) total)) := rfl
  rw [← hdef]
  exact Int.toNat_of_nonneg (le_of_lt (clampedNumCorrect_pos tf total nc))

/-- C2 witness: the amended clamp theorem applied at a concrete input. -/
theorem claim_C2_witness :
    ((sample_multilabel_from_facts [OptionFact.mk "pocketed" []] [] 3 2 .base
        [OptionFact.mk "pocketed" []] []
        [(OptionFact.mk "pocketed" [], true)]).2.length : Int) =
      max 1 (min 2 (min
        ((trueFactsOrDefault [OptionFact.mk "pocketed" []]).length : Int) 3)) :=
  claim_C2 [OptionFact.mk "pocketed" []] [] [OptionFact.mk "pocketed" []] []
    3 2 .base [(OptionFact.mk "pocketed" [], true)]
    (by decide) (by decide) (by decide)

/-- C3: when every supplied true fact and pool fact belongs to the closed
vocabulary, the rendered option strings of one sampler output are pairwise
distinct, for every admissible random draw (the deduplicated fact list is
duplicate-free and the renderer is injective on the vocabulary under any
one tense). -/
theorem claim_C3 (tf pool r1 r2 : List OptionFact) (total nc : Int)
    (tense : Tense) (r3 : List (OptionFact × Bool))
    (hvt : ∀ f ∈ tf, vocabFact f = true)
    (hvp : ∀ f ∈ pool, vocabFact f = true)
    (hr1 : r1.Perm (trueFactsOrDefault tf))
    (hr2 : r2.Perm (distractorCandidates tf pool total nc r1))
    (hr3 : r3.Perm (dedupedLabeled tf pool total nc r1 r2)) :
    (sample_multilabel_from_facts tf pool total nc tense r1 r2 r3).1.Nodup := by
  rw [sample_fst]
  have hfst : (r3.map Prod.fst).Nodup :=
    (List.Perm.nodup_iff (hr3.map Prod.fst)).mpr
      (dedupLabeled_fst_nodup [] (labeledFacts tf pool total nc r1 r2)).1
  have hmapeq : r3.map (fun p => render p.1 tense) =
      (r3.map Prod.fst).map (fun f => render f tense) := by
    rw [List.map_map]
    rfl
  rw [hmapeq]
  refine List.Nodup.map_on ?_ hfst
  intro x hx y hy hxy
  have hvocab : ∀ z ∈ r3.map Prod.fst, vocabFact z = true := by
    intro z hz
    obtain ⟨p, hp, hpz⟩ := List.mem_map.mp hz
    have hp2 := hr3.subset hp
    rcases mem_dedupedLabeled_src hr2 hp2 with h | h | h
    · exact hpz ▸ vocab_of_tfa hvt h
    · exact hpz ▸ hvp _ h
    · exact hpz ▸ vocab_of_tfa hvt (chosenTrue_subset hr1 _ h)
  exact render_inj_on_vocab tense (hvocab x hx) (hvocab y hy) hxy

/-- C3 witness: the uniqueness theorem applied at a concrete input whose
facts are drawn from the closed vocabulary. -/
theorem claim_C3_witness :
    ((∀ f ∈ [OptionFact.mk "pocketed" []], vocabFact f = true) ∧
      (∀ f ∈ [OptionFact.mk "not_pocketed" []], vocabFact f = true)) ∧
    (sample_multilabel_from_facts [OptionFact.mk "pocketed" []]
      [OptionFact.mk "not_pocketed" []] 2 1 .base
      [OptionFact.mk "pocketed" []] [OptionFact.mk "not_pocketed" []]
      [(OptionFact.mk "pocketed" [], true),
       (OptionFact.mk "not_pocketed" [], false)]).1.Nodup :=
  ⟨⟨by decide, by decide⟩,
    claim_C3 [OptionFact.mk "pocketed" []] [OptionFact.mk "not_pocketed" []]
      [OptionFact.mk "pocketed" []] [OptionFact.mk "not_pocketed" []] 2 1
      .base
      [(OptionFact.mk "pocketed" [], true),
       (OptionFact.mk "not_pocketed" [], false)]
      (by decide) (by decide) (by decide) (by decide) (by decide)⟩

/-- C9: for every input — any true facts, pool, total and num_correct —
and every admissible random draw, the sampler returns non-empty options and
non-empty ground truth: the empty-result case the orchestrator checks for
is unreachable, because empty true facts are replaced by [not_pocketed]
and the clamped correct count is at least 1. -/
theorem claim_C9 (tf pool r1 r2 : List OptionFact) (total nc : Int)
    (tense : Tense) (r3 : List (OptionFact × Bool))
    (hr1 : r1.Perm (trueFactsOrDefault tf))
    (hr3 : r3.Perm (dedupedLabeled tf pool total nc r1 r2)) :
    (sample_multilabel_from_facts tf pool total nc tense r1 r2 r3).1 ≠ [] ∧
    (sample_multilabel_from_facts tf pool total nc tense r1 r2 r3).2 ≠ [] := by
  have hcp : 0 < r3.countP (fun p => p.2) := by
    rw [hr3.countP_eq]
    exact countP_dedupedLabeled_pos tf pool r1 r2 total nc hr1
  constructor
  · rw [sample_fst]
    intro hcon
    rw [List.map_eq_nil_iff.mp hcon] at hcp
    simp at hcp
  · rw [sample_snd]
    intro hcon
    have hlen := congrArg List.length hcon
    rw [ground_truth_length] at hlen
    simp only [List.length_nil] at hlen
    omega

/-- C9 witness: the nonemptiness theorem at the most degenerate input
(empty true facts, empty pool, total 0, num_correct 0). -/
theorem claim_C9_witness :
    (sample_multilabel_from_facts [] [] 0 0 .base
      [OptionFact.mk "not_pocketed" []] []
      [(OptionFact.mk "not_pocketed" [], true)]).1 ≠ [] ∧
    (sample_multilabel_from_facts [] [] 0 0 .base
      [OptionFact.mk "not_pocketed" []] []
      [(OptionFact.mk "not_pocketed" [], true)]).2 ≠ [] :=
  claim_C9 [] [] [OptionFact.mk "not_pocketed" []] [] 0 0 .base
    [(OptionFact.mk "not_pocketed" [], true)] (by decide) (by decide)

/-- C4 counterexample: on the (pipeline-unreachable) outcomes dict with
num_wall_hits 0 but a non-empty wall-name list, the extractor emits
hits_0_walls together with first_wall_hit, contradicting the claim as
stated over every outcomes dict. -/
theorem claim_C4_counterexample :
    OptionFact.mk "hits_0_walls" [] ∈
      facts_from_outcome ⟨0, ["red-green-wall"], false, none⟩ ∧
    OptionFact.mk "first_wall_hit" [.str "red-green-wall"] ∈
      facts_from_outcome ⟨0, ["red-green-wall"], false, none⟩ := by
  decide

/-- C4 (amended): for every outcomes dict in which a zero hit count comes
with an empty wall-name list (true of every outcome the pipeline builds),
the extracted fact list never contains a pocketed or pocketed_in fact
together with not_pocketed, and never contains hits_0_walls together with
hits_1_wall, hits_n_diff_walls, hits_same_wall_n_times, or any
first/second/third_wall_hit fact. -/
theorem claim_C4 (o : Outcomes)
    (hcons : o.num_wall_hits = 0 → o.wall_hits = []) :
    (¬ (OptionFact.mk "pocketed" [] ∈ facts_from_outcome o ∧
        OptionFact.mk "not_pocketed" [] ∈ facts_from_outcome o)) ∧
    (∀ c : String,
      ¬ (OptionFact.mk "pocketed_in" [.str c] ∈ facts_from_outcome o ∧
          OptionFact.mk "not_pocketed" [] ∈ facts_from_outcome o)) ∧
    (OptionFact.mk "hits_0_walls" [] ∈ facts_from_outcome o →
      ∀ f ∈ facts_from_outcome o,
        f.kind ≠ "hits_1_wall" ∧ f.kind ≠ "hits_n_diff_walls" ∧
        f.kind ≠ "hits_same_wall_n_times" ∧ f.kind ≠ "first_wall_hit" ∧
        f.kind ≠ "second_wall_hit" ∧ f.kind ≠ "third_wall_hit") := by
  have localize : ∀ x : OptionFact, x ∈ facts_from_outcome o →
      (x.kind = "pocketed" ∨ x.kind = "pocketed_in" ∨
        x.kind = "not_pocketed") → x ∈ pocketFacts o := by
    intro x hx hk
    have h := mem_facts_from_outcome.mp hx
    rcases List.mem_append.mp h with h | h
    · rcases List.mem_append.mp h with h | h
      · exact h
      · exfalso
        rcases hk with hk | hk | hk <;>
          rcases countFacts_kinds _ h with hk2 | hk2 | hk2 | hk2 <;>
          rw [hk] at hk2 <;> exact absurd hk2 (by decide)
    · exfalso
      rcases hk with hk | hk | hk <;>
        rcases seqFacts_kinds _ _ h with hk2 | hk2 | hk2 <;>
        rw [hk] at hk2 <;> exact absurd hk2 (by decide)
  refine ⟨?_, ?_, ?_⟩
  · rintro ⟨hp, hnp⟩
    have h1 := mem_pocketFacts_pocketed (localize _ hp (by simp))
    have h2 := mem_pocketFacts_not_pocketed (localize _ hnp (by simp))
    rw [h1] at h2
    exact Bool.noConfusion h2
  · intro c
    rintro ⟨hp, hnp⟩
    have h1 := mem_pocketFacts_pocketed_in (localize _ hp (by simp))
    have h2 := mem_pocketFacts_not_pocketed (localize _ hnp (by simp))
    rw [h1] at h2
    exact Bool.noConfusion h2
  · intro h0 f hf
    have h0c : OptionFact.mk "hits_0_walls" [] ∈ countFacts o := by
      have h := mem_facts_from_outcome.mp h0
      rcases List.mem_append.mp h with h | h
      · rcases List.mem_append.mp h with h | h
        · exfalso
          rcases pocketFacts_kinds _ h with hk | hk | hk <;>
            exact absurd hk (by decide)
        · exact h
      · exfalso
        rcases seqFacts_kinds _ _ h with hk | hk | hk <;>
          exact absurd hk (by decide)
    have hnum := mem_countFacts_hits0 h0c
    have hwh := hcons hnum
    have hf2 := mem_facts_from_outcome.mp hf
    rcases List.mem_append.mp hf2 with h | h
    · rcases List.mem_append.mp h with h | h
      · rcases pocketFacts_kinds _ h with hk | hk | hk <;> rw [hk] <;>
          exact ⟨by decide, by decide, by decide, by decide, by decide,
            by decide⟩
      · have hcount : countFacts o = [OptionFact.mk "hits_0_walls" []] := by
          unfold countFacts
          rw [if_pos hnum]
        rw [hcount] at h
        simp only [List.mem_singleton] at h
        rw [h]
        exact ⟨by decide, by decide, by decide, by decide, by decide,
          by decide⟩
    · rw [hwh] at h
      simp [seqFacts] at h

/-- C4 witness: the amended mutual-exclusivity theorem applied to a
concrete consistent outcome (pocketed into orange with two wall hits). -/
theorem claim_C4_witness :
    ¬ (OptionFact.mk "pocketed" [] ∈
        facts_from_outcome
          ⟨2, ["blue-purple-wall", "orange-red-wall"], true, some "orange"⟩ ∧
      OptionFact.mk "not_pocketed" [] ∈
        facts_from_outcome
          ⟨2, ["blue-purple-wall", "orange-red-wall"], true, some "orange"⟩) :=
  (claim_C4 ⟨2, ["blue-purple-wall", "orange-red-wall"], true, some "orange"⟩
    (by intro h; exact absurd h (by decide))).1

theorem cf_take_spec (c2 : List Nat) (r : List Nat) (n : Nat)
    (hr : r.Perm c2) :
    (if c2.isEmpty then [] else r.take (min n c2.length)).length ≤ n ∧
    (∀ i ∈ (if c2.isEmpty then [] else r.take (min n c2.length)), i ∈ c2) ∧
    (1 ≤ n →
      ((if c2.isEmpty then [] else r.take (min n c2.length)) = [] ↔
        c2 = [])) := by
  by_cases he : c2.isEmpty
  · rw [if_pos he]
    refine ⟨by simp, by simp, fun _ => ?_⟩
    simp only [List.isEmpty_iff] at he
    simp [he]
  · rw [if_neg he]
    simp only [List.isEmpty_iff] at he
    have hlen : 0 < c2.length := List.length_pos.mpr he
    refine ⟨?_, ?_, ?_⟩
    · calc (r.take (min n c2.length)).length ≤ min n c2.length :=
            List.length_take_le _ _
        _ ≤ n := min_le_left _ _
    · intro i hi
      exact hr.subset (List.take_subset _ _ hi)
    · intro hn
      constructor
      · intro hcon
        rcases List.take_eq_nil_iff.mp hcon with h | h
        · omega
        · rw [h] at hr
          exact absurd hr.symm.eq_nil he
      · intro hcon
        exact absurd hcon he

/-- C5 counterexample: with n = 0 the velocity counterfactual search
returns the empty list even though the bucket after excluding
same-velocity ids is the non-empty [1], refuting the claimed "empty
exactly when the filtered bucket is empty" equivalence as stated for
every n. -/
def cfDemoEntries : Nat → InitState := fun i =>
  if i = 0 then ⟨(1/10, 1/5, 0), (1, 0, 0)⟩ else ⟨(1/10, 1/5, 0), (0, 1, 0)⟩

theorem claim_C5_counterexample :
    find_velocity_cfs (1/10, 1/5, 0) (1, 0, 0) [((1/10, 1/5, 0), [0, 1])]
      cfDemoEntries 0 [1] = [] ∧
    ([0, 1].filter
      (fun i => (cfDemoEntries i).velocity ≠ ((1 : ℚ), (0 : ℚ), (0 : ℚ)))) =
      [1] := by
  norm_num [find_velocity_cfs, dictGetD, cfDemoEntries]

/-- C5 (amended): for every query and index, find_velocity_cfs returns at
most n ids, each drawn from the position bucket with a stored velocity
different from the query velocity (so never the querying entry's own id),
and — provided n is at least 1 — it returns the empty list exactly when
the bucket after excluding same-velocity ids is empty; find_position_cfs
satisfies the symmetric property with position and velocity swapped. -/
theorem claim_C5 :
    (∀ (pos vel : Vec3) (pos_to_ids : List (Vec3 × List Nat))
       (id2entry : Nat → InitState) (n : Nat) (r : List Nat),
      r.Perm ((dictGetD pos_to_ids pos []).filter
        (fun i => (id2entry i).velocity ≠ vel)) →
      (find_velocity_cfs pos vel pos_to_ids id2entry n r).length ≤ n ∧
      (∀ i ∈ find_velocity_cfs pos vel pos_to_ids id2entry n r,
        i ∈ dictGetD pos_to_ids pos [] ∧ (id2entry i).velocity ≠ vel) ∧
      (1 ≤ n →
        (find_velocity_cfs pos vel pos_to_ids id2entry n r = [] ↔
          (dictGetD pos_to_ids pos []).filter
            (fun i => (id2entry i).velocity ≠ vel) = []))) ∧
    (∀ (pos vel : Vec3) (vel_to_ids : List (Vec3 × List Nat))
       (id2entry : Nat → InitState) (n : Nat) (r : List Nat),
      r.Perm ((dictGetD vel_to_ids vel []).filter
        (fun i => (id2entry i).position ≠ pos)) →
      (find_position_cfs pos vel vel_to_ids id2entry n r).length ≤ n ∧
      (∀ i ∈ find_position_cfs pos vel vel_to_ids id2entry n r,
        i ∈ dictGetD vel_to_ids vel [] ∧ (id2entry i).position ≠ pos) ∧
      (1 ≤ n →
        (find_position_cfs pos vel vel_to_ids id2entry n r = [] ↔
          (dictGetD vel_to_ids vel []).filter
            (fun i => (id2entry i).position ≠ pos) = []))) := by
  constructor
  · intro pos vel pos_to_ids id2entry n r hr
    obtain ⟨h1, h2, h3⟩ := cf_take_spec
      ((dictGetD pos_to_ids pos []).filter
        (fun i => (id2entry i).velocity ≠ vel)) r n hr
    refine ⟨h1, ?_, h3⟩
    intro i hi
    have hmem := h2 i hi
    exact ⟨List.mem_of_mem_filter hmem,
      by simpa using List.of_mem_filter hmem⟩
  · intro pos vel vel_to_ids id2entry n r hr
    obtain ⟨h1, h2, h3⟩ := cf_take_spec
      ((dictGetD vel_to_ids vel []).filter
        (fun i => (id2entry i).position ≠ pos)) r n hr
    refine ⟨h1, ?_, h3⟩
    intro i hi
    have hmem := h2 i hi
    exact ⟨List.mem_of_mem_filter hmem,
      by simpa using List.of_mem_filter hmem⟩

/-- C5 witness: the amended matcher theorem applied to the two concrete
entries of the spec's property 6 — shared rounded position (0.10, 0.20,
0.00) and differing rounded velocities — with n = 3, for both search
directions. -/
theorem claim_C5_witness :
    ((find_velocity_cfs (1/10, 1/5, 0) (1, 0, 0) [((1/10, 1/5, 0), [0, 1])]
        cfDemoEntries 3 [1]).length ≤ 3 ∧
      (∀ i ∈ find_velocity_cfs (1/10, 1/5, 0) (1, 0, 0)
          [((1/10, 1/5, 0), [0, 1])] cfDemoEntries 3 [1],
        i ∈ dictGetD [((1/10, 1/5, 0), [0, 1])] (1/10, 1/5, 0) [] ∧
          (cfDemoEntries i).velocity ≠ ((1 : ℚ), (0 : ℚ), (0 : ℚ))) ∧
      (1 ≤ 3 →
        (find_velocity_cfs (1/10, 1/5, 0) (1, 0, 0)
            [((1/10, 1/5, 0), [0, 1])] cfDemoEntries 3 [1] = [] ↔
          (dictGetD [((1/10, 1/5, 0), [0, 1])] (1/10, 1/5, 0) []).filter
            (fun i => (cfDemoEntries i).velocity ≠
              ((1 : ℚ), (0 : ℚ), (0 : ℚ))) = []))) ∧
    ((find_position_cfs (1/10, 1/5, 0) (1, 0, 0) [((1, 0, 0), [0])]
        cfDemoEntries 3 []).length ≤ 3) :=
  ⟨claim_C5.1 (1/10, 1/5, 0) (1, 0, 0) [((1/10, 1/5, 0), [0, 1])]
      cfDemoEntries 3 [1]
      (by
        have h : ((dictGetD [((1/10, 1/5, 0), [0, 1])] (1/10, 1/5, 0)
              []).filter
            (fun i => (cfDemoEntries i).velocity ≠
              (((1 : ℚ), (0 : ℚ), (0 : ℚ)) : Vec3))) = [1] := by
          norm_num [dictGetD, cfDemoEntries]
        rw [h]),
    (claim_C5.2 (1/10, 1/5, 0) (1, 0, 0) [((1, 0, 0), [0])]
      cfDemoEntries 3 []
      (by
        have h : ((dictGetD [((1, 0, 0), [0])] (1, 0, 0) []).filter
            (fun i => (cfDemoEntries i).position ≠
              (((1 : ℚ)/10, (1 : ℚ)/5, (0 : ℚ)) : Vec3))) = [] := by
          norm_num [dictGetD, cfDemoEntries]
        rw [h])).1⟩

/-- C7: for every entry whose hits_detail events are wall events (as the
normalizer constructs them), the predictive variant's filtered wall-hit
names are exactly the names of the events whose frame is at or after
predictive_filter_fraction times total_frames, in their original order; in
particular frames 10, 60, 80 out of 100 with fraction one half keep
exactly the names of the frame-60 and frame-80 events. -/
theorem claim_C7 :
    (∀ (hits_detail : List GHit) (total_frames frac : ℚ),
      (∀ h ∈ hits_detail, h.htype = "wall") →
      predictive_wall_hits hits_detail total_frames frac =
        (hits_detail.filter (fun h => frac * total_frames ≤ h.frame)).map
          (fun h => h.name)) ∧
    predictive_wall_hits
      [⟨"wall", "red-green-wall", 10⟩, ⟨"wall", "blue-purple-wall", 60⟩,
       ⟨"wall", "orange-red-wall", 80⟩] 100 (1/2) =
      ["blue-purple-wall", "orange-red-wall"] := by
  have hgen : ∀ (hits_detail : List GHit) (total_frames frac : ℚ),
      (∀ h ∈ hits_detail, h.htype = "wall") →
      predictive_wall_hits hits_detail total_frames frac =
        (hits_detail.filter (fun h => frac * total_frames ≤ h.frame)).map
          (fun h => h.name) := by
    intro hits tf frac hw
    unfold predictive_wall_hits
    have hthr : (if tf ≠ 0 then frac * tf else 0) = frac * tf := by
      by_cases h0 : tf = 0
      · rw [if_neg (by simp [h0]), h0, mul_zero]
      · rw [if_pos h0]
    rw [hthr]
    refine congrArg _ (List.filter_congr ?_)
    intro h hh
    simp [hw h hh]
  refine ⟨hgen, ?_⟩
  rw [hgen _ _ _ (by intro h hh; fin_cases hh <;> rfl)]
  norm_num [List.filter]

/-- C7 witness: the predictive filtering theorem applied to the concrete
three-hit entry of the spec's property 8. -/
theorem claim_C7_witness :
    predictive_wall_hits
      [⟨"wall", "red-green-wall", 10⟩, ⟨"wall", "blue-purple-wall", 60⟩,
       ⟨"wall", "orange-red-wall", 80⟩] 100 (1/2) =
      ([⟨"wall", "red-green-wall", 10⟩, ⟨"wall", "blue-purple-wall", 60⟩,
        (⟨"wall", "orange-red-wall", 80⟩ : GHit)].filter
          (fun h => (1/2 : ℚ) * 100 ≤ h.frame)).map (fun h => h.name) :=
  claim_C7.1
    [⟨"wall", "red-green-wall", 10⟩, ⟨"wall", "blue-purple-wall", 60⟩,
     ⟨"wall", "orange-red-wall", 80⟩] 100 (1/2)
    (by intro h hh; fin_cases hh <;> rfl)

/-- A string consisting of some prefix, a decimal point, and exactly two
decimal digit characters. -/
def twoDecimalShape (s : String) : Prop :=
  ∃ t u : String, s = t ++ "." ++ u ∧ u.length = 2 ∧
    ∀ ch ∈ u.data, ch.isDigit = true

theorem digitChar_isDigit : ∀ d : Nat, d < 10 →
    (Nat.digitChar d).isDigit = true := by decide

theorem twoDigits_digits (r : Nat) :
    ∀ ch ∈ (twoDigits (r % 100)).data, ch.isDigit = true := by
  intro ch hch
  have hr : r % 100 < 100 := Nat.mod_lt _ (by omega)
  rcases List.mem_cons.mp hch with h | h
  · subst h
    exact digitChar_isDigit _ (by omega)
  · rcases List.mem_cons.mp h with h2 | h2
    · subst h2
      exact digitChar_isDigit _ (Nat.mod_lt _ (by omega))
    · simp at h2

theorem fmtTwo_shape (q : ℚ) : twoDecimalShape (fmtTwo q) :=
  ⟨(if q < 0 then "-" else "") ++
      toString ((roundHalfEven (|q| * 100)).toNat / 100),
    twoDigits ((roundHalfEven (|q| * 100)).toNat % 100), rfl, rfl,
    twoDigits_digits _⟩

theorem fmtTwo_zero : fmtTwo 0 = "0.00" := by
  have h1 : roundHalfEven (|(0 : ℚ)| * 100) = 0 := by
    unfold roundHalfEven
    norm_num
  unfold fmtTwo
  rw [if_neg (by norm_num), h1]
  decide

/-- C8: coord_to_str formats each of the first two coordinate components
with exactly two decimal places; a component of magnitude below 0.005 is
replaced by literal 0.0 and so renders as exactly 0.00 (never -0.00); in
particular 0.0001 and -0.004 both format as 0.00 and 1.234 formats as
1.23 (with -2.5 as -2.50). -/
theorem claim_C8 :
    (∀ (c : Vec3) (p : String), ∃ s1 s2 : String,
      coord_to_str c p =
        "(" ++ p ++ "x=" ++ s1 ++ ", " ++ p ++ "y=" ++ s2 ++ ")" ∧
      twoDecimalShape s1 ∧ twoDecimalShape s2 ∧
      (|c.1| < 1/200 → s1 = "0.00") ∧ (|c.2.1| < 1/200 → s2 = "0.00")) ∧
    coord_to_str (1/10000, -1/250, 0) "" = "(x=0.00, y=0.00)" ∧
    coord_to_str (617/500, -5/2, 0) "d" = "(dx=1.23, dy=-2.50)" := by
  refine ⟨?_, ?_, ?_⟩
  · intro c p
    refine ⟨fmtTwo (if 1/200 ≤ |c.1| then c.1 else 0),
      fmtTwo (if 1/200 ≤ |c.2.1| then c.2.1 else 0), rfl,
      fmtTwo_shape _, fmtTwo_shape _, ?_, ?_⟩
    · intro h
      rw [if_neg (not_le.mpr h)]
      exact fmtTwo_zero
    · intro h
      rw [if_neg (not_le.mpr h)]
      exact fmtTwo_zero
  · unfold coord_to_str
    rw [if_neg (by norm_num [abs]), if_neg (by norm_num [abs])]
    dsimp only
    rw [fmtTwo_zero]
    decide
  · unfold coord_to_str
    rw [if_pos (by norm_num [abs]), if_pos (by norm_num [abs])]
    have h1 : fmtTwo (617/500) = "1.23" := by
      have hr : roundHalfEven (|(617 : ℚ)/500| * 100) = 123 := by
        unfold roundHalfEven
        rw [abs_of_pos (by norm_num)]
        norm_num
      unfold fmtTwo
      rw [if_neg (by norm_num), hr]
      decide
    have h2 : fmtTwo (-5/2) = "-2.50" := by
      have hr : roundHalfEven (|(-5 : ℚ)/2| * 100) = 250 := by
        unfold roundHalfEven
        rw [show |(-5 : ℚ)/2| = 5/2 by norm_num [abs]]
        norm_num
      unfold fmtTwo
      rw [if_pos (by norm_num), hr]
      decide
    dsimp only
    rw [h1, h2]
    decide

/-- C8 witness: the formatting theorem applied at a concrete coordinate
and prefix. -/
theorem claim_C8_witness :
    ∃ s1 s2 : String,
      coord_to_str (0, 3, 0) "v" =
        "(" ++ "v" ++ "x=" ++ s1 ++ ", " ++ "v" ++ "y=" ++ s2 ++ ")" ∧
      twoDecimalShape s1 ∧ twoDecimalShape s2 ∧
      (|((0 : ℚ), (3 : ℚ), (0 : ℚ)).1| < 1/200 → s1 = "0.00") ∧
      (|((0 : ℚ), (3 : ℚ), (0 : ℚ)).2.1| < 1/200 → s2 = "0.00") :=
  claim_C8.1 (0, 3, 0) "v"

/-- Universe of JSON-shaped Python values, for the untrusted raw shot
records consumed by `make_index` (`data_utils.py`).  Dict keys are strings,
as in every record produced by `json.load` on this pipeline's files. -/
inductive PyVal where
  | none
  | bool (b : Bool)
  | int (n : Int)
  | float (q : ℚ)
  | str (s : String)
  | list (xs : List PyVal)
  | dict (kvs : List (String × PyVal))

/-- Python truthiness of a value. -/
def pyTruthy : PyVal → Bool
  | .none => false
  | .bool b => b
  | .int n => n ≠ 0
  | .float q => q ≠ 0
  | .str s => s ≠ ""
  | .list xs => ¬ xs.isEmpty
  | .dict kvs => ¬ kvs.isEmpty

/-- Python `v is None`. -/
def pyIsNone : PyVal → Bool
  | .none => true
  | _ => false

/-- Python `v == "lit"` for a string literal: only a string of equal
contents compares equal. -/
def isStrVal (v : PyVal) (s : String) : Bool :=
  match v with
  | .str t => t = s
  | _ => false

/-- First-match association-list lookup on string keys (Python dict
access; keys are unique in a dict, so the first match is the value). -/
def kvLookup (k : String) : List (String × PyVal) → Option PyVal
  | [] => Option.none
  | (k2, v) :: rest => if k2 = k then some v else kvLookup k rest

/-- Python `dict.get(k, d)` on a dict's key-value list. -/
def dictGet (kvs : List (String × PyVal)) (k : String) (d : PyVal) : PyVal :=
  match kvLookup k kvs with
  | some v => v
  | Option.none => d

/-- Python `str(v)` for the value shapes that can reach `str()` in this
pipeline (cushion ids and pocket values: strings, ints, bools, None).
Floats are rendered from the exact rational (the shortest-float-repr
semantics of CPython is not reproducible under the rational model), and
containers get a placeholder; no claim below depends on those cases. -/
def pyStr : PyVal → String
  | .none => "None"
  | .bool b => if b then "True" else "False"
  | .int n => toString n
  | .float q => if q.den = 1 then toString q.num ++ ".0"
      else toString q.num ++ "/" ++ toString q.den
  | .str s => s
  | .list _ => "<list>"
  | .dict _ => "<dict>"

/-- Digit-character list to the natural number it denotes. -/
def digitsToNat (l : List Char) : Nat :=
  l.foldl (fun a c => a * 10 + (c.toNat - 48)) 0

/-- Decimal-fraction parser for Python `float(str)`: optional sign handled
by the caller, digits with an optional point ("12", "12.", "12.5", ".5").
Exponents, inf/nan, whitespace and underscores are rejected (a
conservative model of CPython's richer grammar; no claim depends on those
forms). -/
def parseDecimalCore (l : List Char) : Option ℚ :=
  match l.splitOn '.' with
  | [a] =>
      if ¬ a.isEmpty ∧ a.all Char.isDigit then some (digitsToNat a : ℚ)
      else Option.none
  | [a, b] =>
      if ¬ (a.isEmpty ∧ b.isEmpty) ∧ a.all Char.isDigit ∧
          b.all Char.isDigit then
        some ((digitsToNat a : ℚ) + (digitsToNat b : ℚ) / (10 : ℚ) ^ b.length)
      else Option.none
  | _ => Option.none

/-- Python `float(v)`: `none` is a raised TypeError/ValueError. -/
def pyFloatOpt : PyVal → Option ℚ
  | .float q => some q
  | .int n => some (n : ℚ)
  | .bool b => some (if b then 1 else 0)
  | .str s =>
      match s.data with
      | '-' :: rest => (parseDecimalCore rest).map (fun q => -q)
      | '+' :: rest => parseDecimalCore rest
      | l => parseDecimalCore l
  | _ => Option.none

/-- Python `int(v)` with integer-string parsing and float truncation
toward zero; `none` is a raised TypeError/ValueError (whitespace and
underscores in strings are rejected — a conservative model; no claim
depends on them). -/
def pyIntOpt : PyVal → Option Int
  | .int n => some n
  | .bool b => some (if b then 1 else 0)
  | .float q => some (if 0 ≤ q then ⌊q⌋ else ⌈q⌉)
  | .str s =>
      let core : List Char → Option Int := fun l =>
        if ¬ l.isEmpty ∧ l.all Char.isDigit then some (digitsToNat l : Int)
        else Option.none
      match s.data with
      | '-' :: rest => (core rest).map (fun n => -n)
      | '+' :: rest => core rest
      | l => core l
  | _ => Option.none

/-- The first three numeric components of a sequence: a missing component
defaults to 0.0, and a component on which `float()` raises makes the whole
triple fail (the try/except in `round_components` zeroes all three). -/
def getThreeQ (xs : List PyVal) : Option (ℚ × ℚ × ℚ) :=
  let f : Nat → Option ℚ := fun i =>
    match xs.get? i with
    | some v => pyFloatOpt v
    | Option.none => some 0
  match f 0, f 1, f 2 with
  | some a, some b, some c => some (a, b, c)
  | _, _, _ => Option.none

/-- Mirrors the inner `round_components` of `make_index`: parse up to
three numeric components and round each to 2 decimals; any exception
(unsized value, failed `float()`, indexing a dict) degrades to all-zero
components.  A non-empty dict raises on `arr[0]` and an empty dict has
length 0, so every dict yields zeros, as does every unsized value whose
`len()` raises. -/
def round_components (arr : PyVal) : Vec3 :=
  let comps : Option (ℚ × ℚ × ℚ) :=
    match arr with
    | .list xs => getThreeQ xs
    | .str s => getThreeQ (s.data.map fun c => PyVal.str (String.mk [c]))
    | _ => some (0, 0, 0)
  match comps with
  | some (a, b, c) => (round2 a, round2 b, round2 c)
  | Option.none => (round2 0, round2 0, round2 0)

/-- One wall-hit event derived by `extract_cue_wall_hits`: the constant
type tag "wall", the (possibly falsy or non-string) wall name, the raw
frame value, and the optional parsed cushion index. -/
structure MIHit where
  htype : String
  name : PyVal
  frame : PyVal
  index : Option Int

/-- Numeric sort key of a frame value (bool/int/float are mutually
comparable in Python). -/
def frameQ : PyVal → Option ℚ
  | .int n => some (n : ℚ)
  | .float q => some q
  | .bool b => some (if b then 1 else 0)
  | _ => Option.none

/-- String sort key of a frame value. -/
def frameS : PyVal → Option String
  | .str s => some s
  | _ => Option.none

/-- Mirrors `hits.sort(key=lambda h: h.get("frame", 0))`: a stable sort by
frame.  With at most one hit Python performs no comparison; otherwise all
frames must lie in one comparable class (all numeric, or all strings) or
the sort raises TypeError.  (Two list-valued frames would also compare in
CPython; that pathological case is modelled as an error — no claim
depends on it.) -/
def sortHitsByFrame (hits : List MIHit) : Except String (List MIHit) :=
  if hits.length ≤ 1 then .ok hits
  else if hits.all (fun h => (frameQ h.frame).isSome) then
    .ok (List.insertionSort
      (fun a b => (frameQ a.frame).getD 0 ≤ (frameQ b.frame).getD 0) hits)
  else if hits.all (fun h => (frameS h.frame).isSome) then
    .ok (List.insertionSort
      (fun a b => (frameS a.frame).getD "" ≤ (frameS b.frame).getD "") hits)
  else .error "TypeError: unorderable frame values"

/-- Mirrors `extract_cue_wall_hits` of `data_utils.py` on a raw record's
key-value list: filter the event list to cue-ball cushion events, resolve
the wall name through the cushion map (defaulting to "unknown"), record
frame and parsed index, and sort ascending by frame. -/
def extract_cue_wall_hits (kvs : List (String × PyVal)) :
    Except String (List MIHit) :=
  match dictGet kvs "events" (.list []), dictGet kvs "cushion" (.dict []) with
  | .list evs, .dict cmap =>
      let hits := evs.filterMap (fun ev =>
        match ev with
        | .dict ekvs =>
            if isStrVal (dictGet ekvs "ball_id" .none) "cue" then
              if isStrVal (dictGet ekvs "type" .none) "linear_cushion" ||
                  isStrVal (dictGet ekvs "type" .none) "circular_cushion" then
                let cid := dictGet ekvs "cushion_id" .none
                let wname : PyVal :=
                  match cid with
                  | .none => .str "unknown"
                  | _ =>
                      match kvLookup (pyStr cid) cmap with
                      | some v => v
                      | Option.none => .str "unknown"
                some (MIHit.mk "wall" wname (dictGet ekvs "frame" (.int 0))
                  (match cid with
                   | .none => Option.none
                   | _ => pyIntOpt cid))
              else Option.none
            else Option.none
        | _ => Option.none)
      sortHitsByFrame hits
  | _, _ => .ok []

/-- The normalized outcomes sub-record of an entry built by `make_index`. -/
structure OutcomesN where
  num_wall_hits : Int
  wall_hits : List PyVal
  pocketed : Bool
  which_pocket : PyVal
  pocket_color : PyVal

/-- One normalized entry of `id_to_entry` as built by `make_index`. -/
structure MIEntry where
  video : PyVal
  position : Vec3
  velocity : Vec3
  outcomes : OutcomesN
  hits_detail : List MIHit
  total_frames : PyVal

/-- The video-id resolution of `make_index`:
`raw.get("video") or (raw.get("metadata") or {}).get("shot_id") or
f"shot_{i}"`.  A truthy non-dict metadata raises AttributeError here. -/
def resolveVideo (i : Nat) (kvs : List (String × PyVal)) :
    Except String PyVal :=
  let v1 := dictGet kvs "video" .none
  if pyTruthy v1 then .ok v1
  else
    let m := dictGet kvs "metadata" .none
    match (if pyTruthy m then m else .dict []) with
    | .dict mkvs =>
        let v2 := dictGet mkvs "shot_id" .none
        if pyTruthy v2 then .ok v2 else .ok (.str ("shot_" ++ toString i))
    | _ => .error "AttributeError: metadata has no attribute get"

/-- The source resolution of `make_index`: read position/velocity/outcomes
from `balls.cue` when that sub-record exists, else fall back to the legacy
top-level fields.  A present, non-None, non-dict cue raises
AttributeError (`cue.get`). -/
def resolveSources (kvs : List (String × PyVal)) :
    Except String (PyVal × PyVal × PyVal) :=
  let balls := dictGet kvs "balls" (.dict [])
  let cue : Option PyVal :=
    match balls with
    | .dict bkvs => kvLookup "cue" bkvs
    | _ => Option.none
  match cue with
  | Option.none | some .none =>
      .ok (dictGet kvs "position" (.list [.float 0, .float 0, .float 0]),
        dictGet kvs "velocity" (.list [.float 0, .float 0, .float 0]),
        dictGet kvs "outcomes" (.dict []))
  | some (.dict ckvs) =>
      .ok (dictGet ckvs "initial_position"
          (.list [.float 0, .float 0, .float 0]),
        dictGet ckvs "initial_velocity" (.list [.float 0, .float 0, .float 0]),
        dictGet ckvs "outcomes" (.dict []))
  | some _ => .error "AttributeError: cue record has no attribute get"

/-- The metadata used for `total_frames`:
`meta = raw.get("metadata") or {}` followed by `meta.get(...)`; a truthy
non-dict metadata raises AttributeError. -/
def resolveMeta (kvs : List (String × PyVal)) :
    Except String (List (String × PyVal)) :=
  let m := dictGet kvs "metadata" .none
  match (if pyTruthy m then m else .dict []) with
  | .dict mkvs => .ok mkvs
  | _ => .error "AttributeError: metadata has no attribute get"

/-- The pocket resolution of `make_index`: `(pocket_val, pocket_color)`
from the outcomes record (dict-with-color, string, or any other non-None
value coerced through `str()`); a non-dict outcomes record leaves both
None. -/
def resolvePocket (outcomes_raw : PyVal) : PyVal × PyVal :=
  match outcomes_raw with
  | .dict okvs =>
      let pv := dictGet okvs "pocket" .none
      let pc : PyVal :=
        match pv with
        | .dict pkvs => dictGet pkvs "color" .none
        | .str s => .str s
        | .none => .none
        | _ => .str (pyStr pv)
      (pv, pc)
  | _ => (.none, .none)

/-- The legacy stored wall-hit count:
`outcomes_raw.get("wall_hits", outcomes_raw.get("num_wall_hits", None))`
(None when the outcomes record is not a dict). -/
def storedVal (outcomes_raw : PyVal) : PyVal :=
  match outcomes_raw with
  | .dict okvs =>
      match kvLookup "wall_hits" okvs with
      | some v => v
      | Option.none =>
          match kvLookup "num_wall_hits" okvs with
          | some v => v
          | Option.none => .none
  | _ => .none

/-- The final `num_wall_hits` of an entry: the count of derived truthy
wall names, overridden — only when that count is zero and the outcomes
record is a dict holding a non-None stored count — by `int(stored)`
(0 when `int()` raises). -/
def resolveNumWallHits (outcomes_raw : PyVal) (numDerived : Int) : Int :=
  if numDerived = 0 then
    match outcomes_raw with
    | .dict _ =>
        match storedVal outcomes_raw with
        | .none => numDerived
        | v => (pyIntOpt v).getD 0
    | _ => numDerived
  else numDerived

/-- The truthy-named wall hits kept for `outcomes["wall_hits"]`
(`[h["name"] for h in wall_hits_detail if h.get("type") == "wall" and
h.get("name")]`). -/
def wallNamesOf (detail : List MIHit) : List PyVal :=
  (detail.filter (fun h => (h.htype == "wall") && pyTruthy h.name)).map
    (fun h => h.name)

/-- The pure tail of the `make_index` loop body: build the normalized
entry once the four fallible resolutions (video id, sources, wall-hit
extraction, metadata) have succeeded. -/
def entryOf (video : PyVal) (srcs : PyVal × PyVal × PyVal)
    (detail : List MIHit) (meta : List (String × PyVal)) : MIEntry :=
  let outcomes_raw := srcs.2.2
  let wall_hits := wallNamesOf detail
  let pr := resolvePocket outcomes_raw
  let num_wall_hits := resolveNumWallHits outcomes_raw (wall_hits.length : Int)
  let pocketed := ¬ pyIsNone pr.1
  ⟨video, round_components srcs.1, round_components srcs.2.1,
    ⟨num_wall_hits, wall_hits, pocketed,
      if pocketed then pr.1 else .none, pr.2⟩,
    detail, dictGet meta "total_frames" (.int 0)⟩

/-- Mirrors the per-record body of the `make_index` loop
(`data_utils.py` lines 83-171): normalize one raw record into an entry,
propagating the AttributeError/TypeError sites of the Python code as
errors. -/
def normalizeEntry (i : Nat) (raw : PyVal) : Except String MIEntry := do
  match raw with
  | .dict kvs =>
      let video ← resolveVideo i kvs
      let srcs ← resolveSources kvs
      let detail ← extract_cue_wall_hits kvs
      let meta ← resolveMeta kvs
      .ok (entryOf video srcs detail meta)
  | _ => .error "AttributeError: record has no attribute get"

/-- One step of the normalization loop, paired with the record index. -/
def normStep (p : Nat × PyVal) : Except String (Nat × MIEntry) :=
  (normalizeEntry p.1 p.2).map (fun e => (p.1, e))

/-- Generic first-match association lookup (used for the pos/vel index
keys). -/
def alookup {κ β : Type} [DecidableEq κ] (k : κ) : List (κ × β) → Option β
  | [] => Option.none
  | (k2, v) :: rest => if k2 = k then some v else alookup k rest

/-- Append an id to a defaultdict(list) bucket, preserving dict insertion
order of keys. -/
def addBucket (m : List (Vec3 × List Nat)) (k : Vec3) (i : Nat) :
    List (Vec3 × List Nat) :=
  match m with
  | [] => [(k, [i])]
  | (k2, v) :: rest =>
      if k2 = k then (k2, v ++ [i]) :: rest else (k2, v) :: addBucket rest k i

/-- The four structures `make_index` returns. -/
structure MIResult where
  id_to_entry : List (Nat × MIEntry)
  index_by_pos_vel : List ((Vec3 × Vec3) × Nat)
  pos_to_ids : List (Vec3 × List Nat)
  vel_to_ids : List (Vec3 × List Nat)

/-- Mirrors `make_index` of `data_utils.py`: normalize every record (an
exception in any record propagates out of the whole call, as in Python)
and build the first-seen (position, velocity) index and the two
defaultdict buckets. -/
def make_index (sim_data : List PyVal) : Except String MIResult := do
  let ents ← sim_data.enum.mapM normStep
  let ipv := ents.foldl (fun acc p =>
    match alookup (p.2.position, p.2.velocity) acc with
    | some _ => acc
    | Option.none => acc ++ [((p.2.position, p.2.velocity), p.1)]) []
  let pti := ents.foldl (fun acc p => addBucket acc p.2.position p.1) []
  let vti := ents.foldl (fun acc p => addBucket acc p.2.velocity p.1) []
  .ok ⟨ents, ipv, pti, vti⟩

/-- The entries produced by `make_index`, empty when it raises. -/
def entriesOf (sim_data : List PyVal) : List (Nat × MIEntry) :=
  match make_index sim_data with
  | .ok r => r.id_to_entry
  | .error _ => []

/-- The cue sub-record, when present, is a dict or None (otherwise
`cue.get` raises). -/
def cueOk (kvs : List (String × PyVal)) : Bool :=
  match dictGet kvs "balls" (.dict []) with
  | .dict bkvs =>
      match kvLookup "cue" bkvs with
      | some (.dict _) => true
      | some .none => true
      | Option.none => true
      | some _ => false
  | _ => true

/-- The metadata field, when truthy, is a dict (otherwise `meta.get`
raises). -/
def metaOk (kvs : List (String × PyVal)) : Bool :=
  match dictGet kvs "metadata" .none with
  | .dict _ => true
  | m => ¬ pyTruthy m

/-- A raw record `make_index` can process without raising: a dict whose
cue sub-record and metadata are well-shaped and whose cue wall-hit events
have sortable frames. -/
def wfRecord (raw : PyVal) : Bool :=
  match raw with
  | .dict kvs =>
      cueOk kvs && metaOk kvs &&
        (match extract_cue_wall_hits kvs with
         | .ok _ => true
         | .error _ => false)
  | _ => false

theorem resolveVideo_ok {i : Nat} {kvs : List (String × PyVal)}
    (h : metaOk kvs = true) : ∃ v, resolveVideo i kvs = .ok v := by
  unfold resolveVideo
  by_cases h1 : pyTruthy (dictGet kvs "video" .none)
  · exact ⟨_, by rw [if_pos h1]⟩
  · rw [if_neg h1]
    dsimp only
    unfold metaOk at h
    by_cases h2 : pyTruthy (dictGet kvs "metadata" .none)
    · rw [if_pos h2]
      rcases hm : dictGet kvs "metadata" .none with _ | b | n | q | s | xs | mkvs <;>
        rw [hm] at h h2
      · simp [pyTruthy] at h2
      · simp_all [pyTruthy]
      · simp_all [pyTruthy]
      · simp_all [pyTruthy]
      · simp_all [pyTruthy]
      · simp_all [pyTruthy]
      · dsimp only
        by_cases h3 : pyTruthy (dictGet mkvs "shot_id" .none)
        · exact ⟨_, by rw [if_pos h3]⟩
        · exact ⟨_, by rw [if_neg h3]⟩
    · rw [if_neg h2]
      dsimp only
      by_cases h3 : pyTruthy (dictGet ([] : List (String × PyVal)) "shot_id" .none)
      · exact ⟨_, by rw [if_pos h3]⟩
      · exact ⟨_, by rw [if_neg h3]⟩

theorem resolveSources_ok {kvs : List (String × PyVal)}
    (h : cueOk kvs = true) : ∃ s, resolveSources kvs = .ok s := by
  unfold resolveSources
  unfold cueOk at h
  dsimp only
  rcases hb : dictGet kvs "balls" (.dict []) with _ | b | n | q | s | xs | bkvs <;>
    rw [hb] at h
  case dict =>
    simp only at h ⊢
    rcases hc : kvLookup "cue" bkvs with _ | c <;> rw [hc] at h
    · exact ⟨_, rfl⟩
    · rcases c with _ | b2 | n2 | q2 | s2 | xs2 | ckvs <;> simp at h ⊢
  all_goals exact ⟨_, rfl⟩

theorem ok_bindE {α β : Type} (a : α) (f : α → Except String β) :
    (Except.ok a >>= f) = f a := rfl

theorem err_bindE {α β : Type} (s : String) (f : α → Except String β) :
    ((Except.error s : Except String α) >>= f) = .error s := rfl

theorem resolveMeta_ok {kvs : List (String × PyVal)}
    (h : metaOk kvs = true) : ∃ m, resolveMeta kvs = .ok m := by
  unfold resolveMeta
  unfold metaOk at h
  dsimp only
  by_cases h2 : pyTruthy (dictGet kvs "metadata" .none)
  · rw [if_pos h2]
    rcases hm : dictGet kvs "metadata" .none with _ | b | n | q | s | xs | mkvs <;>
      rw [hm] at h h2
    · simp [pyTruthy] at h2
    · simp_all [pyTruthy]
    · simp_all [pyTruthy]
    · simp_all [pyTruthy]
    · simp_all [pyTruthy]
    · simp_all [pyTruthy]
    · exact ⟨_, rfl⟩
  · rw [if_neg h2]
    exact ⟨_, rfl⟩

theorem normalizeEntry_ok {i : Nat} {raw : PyVal} (h : wfRecord raw = true) :
    ∃ e, normalizeEntry i raw = .ok e := by
  cases raw with
  | dict kvs =>
      simp only [wfRecord, Bool.and_eq_true] at h
      obtain ⟨⟨hc, hm⟩, hx⟩ := h
      obtain ⟨video, hv⟩ := @resolveVideo_ok i kvs hm
      obtain ⟨srcs, hs⟩ := resolveSources_ok hc
      obtain ⟨meta, hme⟩ := resolveMeta_ok hm
      rcases hd : extract_cue_wall_hits kvs with s | detail
      · rw [hd] at hx; simp at hx
      · refine ⟨entryOf video srcs detail meta, ?_⟩
        simp only [normalizeEntry]
        rw [hv, ok_bindE, hs, ok_bindE, hd, ok_bindE, hme, ok_bindE]
  | none => simp [wfRecord] at h
  | bool b => simp [wfRecord] at h
  | int n => simp [wfRecord] at h
  | float q => simp [wfRecord] at h
  | str s => simp [wfRecord] at h
  | list xs => simp [wfRecord] at h

theorem normalizeEntry_inv {i : Nat} {raw : PyVal} {e : MIEntry}
    (h : normalizeEntry i raw = .ok e) :
    ∃ kvs video srcs detail meta, raw = .dict kvs ∧
      resolveVideo i kvs = .ok video ∧ resolveSources kvs = .ok srcs ∧
      extract_cue_wall_hits kvs = .ok detail ∧ resolveMeta kvs = .ok meta ∧
      e = entryOf video srcs detail meta := by
  cases raw with
  | dict kvs =>
      simp only [normalizeEntry] at h
      rcases hv : resolveVideo i kvs with s | video <;> rw [hv] at h
      · rw [err_bindE] at h; cases h
      · rw [ok_bindE] at h
        rcases hs : resolveSources kvs with s | srcs <;> rw [hs] at h
        · rw [err_bindE] at h; cases h
        · rw [ok_bindE] at h
          rcases hd : extract_cue_wall_hits kvs with s | detail <;> rw [hd] at h
          · rw [err_bindE] at h; cases h
          · rw [ok_bindE] at h
            rcases hme : resolveMeta kvs with s | meta <;> rw [hme] at h
            · rw [err_bindE] at h; cases h
            · rw [ok_bindE] at h
              cases h
              exact ⟨kvs, video, srcs, detail, meta, rfl, hv, hs, hd, hme, rfl⟩
  | none => simp [normalizeEntry] at h
  | bool b => simp [normalizeEntry] at h
  | int n => simp [normalizeEntry] at h
  | float q => simp [normalizeEntry] at h
  | str s => simp [normalizeEntry] at h
  | list xs => simp [normalizeEntry] at h

theorem mapM_norm_ok : ∀ (l : List (Nat × PyVal)),
    (∀ p ∈ l, wfRecord p.2 = true) →
    ∃ es, l.mapM normStep = .ok es
  | [], _ => ⟨[], by rw [List.mapM_nil]; rfl⟩
  | ⟨i, raw⟩ :: l, h => by
      obtain ⟨ea, hea⟩ := @normalizeEntry_ok i raw
        (h (i, raw) (List.mem_cons_self _ _))
      obtain ⟨es, hes⟩ :=
        mapM_norm_ok l (fun p hp => h p (List.mem_cons_of_mem _ hp))
      refine ⟨(i, ea) :: es, ?_⟩
      rw [List.mapM_cons]
      have hsa : normStep (i, raw) = .ok (i, ea) := by
        unfold normStep; rw [hea]; rfl
      rw [hsa, ok_bindE, hes, ok_bindE]
      rfl

theorem mapM_norm_mem : ∀ (l : List (Nat × PyVal)) (es : List (Nat × MIEntry)),
    l.mapM normStep = .ok es →
    ∀ q ∈ es, ∃ raw, (q.1, raw) ∈ l ∧ normalizeEntry q.1 raw = .ok q.2
  | [], es, h => by
      rw [List.mapM_nil] at h
      intro q hq
      cases h
      simp at hq
  | ⟨i, raw⟩ :: l, es, h => by
      rw [List.mapM_cons] at h
      rcases ha : normStep (i, raw) with s | b <;> rw [ha] at h
      · rw [err_bindE] at h; cases h
      · rw [ok_bindE] at h
        rcases hrest : l.mapM normStep with s | bs <;> rw [hrest] at h
        · rw [err_bindE] at h; cases h
        · rw [ok_bindE] at h
          simp only [pure, Except.pure] at h
          cases h
          intro q hq
          rcases List.mem_cons.mp hq with hq | hq
          · subst hq
            unfold normStep at ha
            rcases hna : normalizeEntry i raw with s | ea <;> rw [hna] at ha
            · simp [Except.map] at ha
            · simp only [Except.map, Except.ok.injEq] at ha
              subst ha
              exact ⟨raw, List.mem_cons_self _ _, hna⟩
          · obtain ⟨r2, h1, h2⟩ := mapM_norm_mem l bs hrest q hq
            exact ⟨r2, List.mem_cons_of_mem _ h1, h2⟩

theorem make_index_from_mapM {sim_data : List PyVal}
    {es : List (Nat × MIEntry)}
    (h : sim_data.enum.mapM normStep = .ok es) :
    ∃ res, make_index sim_data = .ok res ∧ res.id_to_entry = es := by
  unfold make_index
  rw [h, ok_bindE]
  exact ⟨_, rfl, rfl⟩

theorem entriesOf_mem {sim_data : List PyVal} {p : Nat × MIEntry}
    (h : p ∈ entriesOf sim_data) :
    ∃ raw, (p.1, raw) ∈ sim_data.enum ∧ normalizeEntry p.1 raw = .ok p.2 := by
  unfold entriesOf at h
  rcases hmk : make_index sim_data with s | r <;> rw [hmk] at h
  · simp at h
  · simp only at h
    unfold make_index at hmk
    rcases hm : sim_data.enum.mapM normStep with s | es <;> rw [hm] at hmk
    · rw [err_bindE] at hmk; cases hmk
    · rw [ok_bindE] at hmk
      have hid : r.id_to_entry = es := by cases hmk; rfl
      rw [hid] at h
      exact mapM_norm_mem _ _ hm p h

theorem round2_zero : round2 0 = 0 := by
  norm_num [round2, roundHalfEven]

theorem round_components_shape (v : PyVal) :
    ∃ a b c, round_components v = (round2 a, round2 b, round2 c) := by
  cases v with
  | list xs =>
      rcases h : getThreeQ xs with _ | abc
      · exact ⟨0, 0, 0, by simp only [round_components, h]⟩
      · obtain ⟨a, b, c⟩ := abc
        exact ⟨a, b, c, by simp only [round_components, h]⟩
  | str s =>
      rcases h : getThreeQ (s.data.map fun c => PyVal.str (String.mk [c]))
        with _ | abc
      · exact ⟨0, 0, 0, by simp only [round_components, h]⟩
      · obtain ⟨a, b, c⟩ := abc
        exact ⟨a, b, c, by simp only [round_components, h]⟩
  | none => exact ⟨0, 0, 0, rfl⟩
  | bool b => exact ⟨0, 0, 0, rfl⟩
  | int n => exact ⟨0, 0, 0, rfl⟩
  | float q => exact ⟨0, 0, 0, rfl⟩
  | dict kvs => exact ⟨0, 0, 0, rfl⟩

theorem round_components_zeros :
    round_components (.list [.float 0, .float 0, .float 0]) = (0, 0, 0) := by
  rw [show round_components (.list [.float 0, .float 0, .float 0]) =
    (round2 0, round2 0, round2 0) from rfl, round2_zero]

theorem round_components_dict (okvs : List (String × PyVal)) :
    round_components (.dict okvs) = (0, 0, 0) := by
  rw [show round_components (.dict okvs) =
    (round2 0, round2 0, round2 0) from rfl, round2_zero]

theorem resolveNumWallHits_default (n : Int) :
    resolveNumWallHits (.dict []) n = n := by
  unfold resolveNumWallHits
  by_cases hn : n = 0
  · rw [if_pos hn]
    rfl
  · rw [if_neg hn]

theorem entryOf_fields (video : PyVal) (srcs : PyVal × PyVal × PyVal)
    (detail : List MIHit) (meta : List (String × PyVal)) :
    (entryOf video srcs detail meta).position = round_components srcs.1 ∧
    (entryOf video srcs detail meta).velocity = round_components srcs.2.1 ∧
    (entryOf video srcs detail meta).outcomes.wall_hits = wallNamesOf detail ∧
    (entryOf video srcs detail meta).outcomes.num_wall_hits =
      resolveNumWallHits srcs.2.2 ((wallNamesOf detail).length : Int) :=
  ⟨rfl, rfl, rfl, rfl⟩

theorem entryOf_pocket_default (video : PyVal) (srcs : PyVal × PyVal × PyVal)
    (detail : List MIHit) (meta : List (String × PyVal))
    (h : (entryOf video srcs detail meta).outcomes.pocketed = false) :
    (entryOf video srcs detail meta).outcomes.which_pocket = PyVal.none := by
  dsimp only [entryOf] at h ⊢
  exact if_neg (of_decide_eq_false h)

theorem resolveNumWallHits_ne {o : PyVal} {k : Int} (h : k ≠ 0) :
    resolveNumWallHits o k = k := by
  unfold resolveNumWallHits
  rw [if_neg h]

theorem resolveNumWallHits_zero_pos {o : PyVal}
    (h : 0 < resolveNumWallHits o 0) :
    storedVal o ≠ PyVal.none ∧
      resolveNumWallHits o 0 = (pyIntOpt (storedVal o)).getD 0 := by
  unfold resolveNumWallHits at h ⊢
  rw [if_pos rfl] at h ⊢
  cases o with
  | dict okvs =>
      rcases hsv : storedVal (.dict okvs) with _ | b | n | q | s | xs | okvs2
      · rw [hsv] at h; simp at h
      · exact ⟨by simp, rfl⟩
      · exact ⟨by simp, rfl⟩
      · exact ⟨by simp, rfl⟩
      · exact ⟨by simp, rfl⟩
      · exact ⟨by simp, rfl⟩
      · exact ⟨by simp, rfl⟩
  | none => simp at h
  | bool b => simp at h
  | int n => simp at h
  | float q => simp at h
  | str s => simp at h
  | list xs => simp at h

/-- C6 counterexample: a raw record whose `balls.cue` value is the integer
5 makes `make_index` raise AttributeError at `cue.get`, refuting the claim
that `make_index` never raises on arbitrarily-shaped dict records. -/
theorem claim_C6_counterexample :
    make_index [.dict [("balls", .dict [("cue", .int 5)])]] =
      .error "AttributeError: cue record has no attribute get" := rfl

/-- C6 (amended): for every list of raw records that are dicts whose cue
sub-record is a dict or None, whose metadata is a dict when truthy, and
whose cue wall-hit frames are sortable, `make_index` does not raise, and
every produced entry is well-typed: position and velocity are triples of
2-decimal-rounded components, and a not-pocketed entry carries pocket
None.  Moreover the degradation defaults hold: a missing position or
velocity source (the default `[0.0, 0.0, 0.0]`) rounds to the all-zero
triple, a malformed (dict-valued) component list degrades to the all-zero
triple, an empty outcomes record yields pocket None (not pocketed) and
leaves the derived wall-hit count unchanged. -/
theorem claim_C6 :
    (∀ sim_data : List PyVal, (∀ r ∈ sim_data, wfRecord r = true) →
      ∃ res, make_index sim_data = .ok res ∧
        ∀ p ∈ res.id_to_entry,
          (∃ a b c, p.2.position = (round2 a, round2 b, round2 c)) ∧
          (∃ a b c, p.2.velocity = (round2 a, round2 b, round2 c)) ∧
          (p.2.outcomes.pocketed = false →
            p.2.outcomes.which_pocket = PyVal.none)) ∧
    round_components (.list [.float 0, .float 0, .float 0]) = (0, 0, 0) ∧
    (∀ okvs, round_components (.dict okvs) = (0, 0, 0)) ∧
    resolvePocket (.dict []) = (.none, .none) ∧
    (∀ n : Int, resolveNumWallHits (.dict []) n = n) := by
  refine ⟨?_, round_components_zeros, round_components_dict, rfl,
    resolveNumWallHits_default⟩
  intro sim_data hwf
  obtain ⟨es, hes⟩ := mapM_norm_ok sim_data.enum
    (fun p hp => hwf p.2 (List.snd_mem_of_mem_enum hp))
  obtain ⟨res, hres, hid⟩ := make_index_from_mapM hes
  refine ⟨res, hres, ?_⟩
  intro p hp
  rw [hid] at hp
  obtain ⟨raw, _, hne⟩ := mapM_norm_mem _ _ hes p hp
  obtain ⟨kvs, video, srcs, detail, meta, _, _, _, _, _, he⟩ :=
    normalizeEntry_inv hne
  rw [he]
  obtain ⟨a1, b1, c1, h1⟩ := round_components_shape srcs.1
  obtain ⟨a2, b2, c2, h2⟩ := round_components_shape srcs.2.1
  exact ⟨⟨a1, b1, c1,
      by rw [(entryOf_fields video srcs detail meta).1, h1]⟩,
    ⟨a2, b2, c2,
      by rw [(entryOf_fields video srcs detail meta).2.1, h2]⟩,
    entryOf_pocket_default video srcs detail meta⟩

/-- C6 witness: the amended theorem applied to the one-record list holding
the empty dict, a well-formed record with every field missing. -/
theorem claim_C6_witness :
    ∃ res, make_index [PyVal.dict []] = .ok res ∧
      ∀ p ∈ res.id_to_entry,
        (∃ a b c, p.2.position = (round2 a, round2 b, round2 c)) ∧
        (∃ a b c, p.2.velocity = (round2 a, round2 b, round2 c)) ∧
        (p.2.outcomes.pocketed = false →
          p.2.outcomes.which_pocket = PyVal.none) :=
  claim_C6.1 [PyVal.dict []]
    (fun r hr => by rw [List.mem_singleton] at hr; subst hr; rfl)

/-- C10 (amended): every entry `make_index` produces satisfies: when the
normalized wall-hit name list is non-empty, num_wall_hits equals its
length; and a positive num_wall_hits with an empty wall_hits list can
arise only from a legacy stored count — the record's outcomes dict holds a
non-None `wall_hits`/`num_wall_hits` value whose `int()` coercion is the
stored count — when no *truthy-named* cue wall-hit events were derived
(derived events with falsy names may still populate hits_detail). -/
theorem claim_C10 (sim_data : List PyVal) (p : Nat × MIEntry)
    (hp : p ∈ entriesOf sim_data) :
    (p.2.outcomes.wall_hits ≠ [] →
      p.2.outcomes.num_wall_hits = (p.2.outcomes.wall_hits.length : Int)) ∧
    (0 < p.2.outcomes.num_wall_hits → p.2.outcomes.wall_hits = [] →
      ∃ kvs srcs, (p.1, PyVal.dict kvs) ∈ sim_data.enum ∧
        resolveSources kvs = .ok srcs ∧
        storedVal srcs.2.2 ≠ PyVal.none ∧
        p.2.outcomes.num_wall_hits =
          (pyIntOpt (storedVal srcs.2.2)).getD 0) := by
  obtain ⟨raw, hmem, hne⟩ := entriesOf_mem hp
  obtain ⟨kvs, video, srcs, detail, meta, hraw, hv, hs, hd, hme, he⟩ :=
    normalizeEntry_inv hne
  subst hraw
  have hwh : p.2.outcomes.wall_hits = wallNamesOf detail := by
    rw [he]; exact (entryOf_fields video srcs detail meta).2.2.1
  have hnum : p.2.outcomes.num_wall_hits =
      resolveNumWallHits srcs.2.2 ((wallNamesOf detail).length : Int) := by
    rw [he]; exact (entryOf_fields video srcs detail meta).2.2.2
  constructor
  · intro hnil
    rw [hwh] at hnil ⊢
    rw [hnum]
    exact resolveNumWallHits_ne
      (fun h0 => hnil (List.length_eq_zero.mp (by exact_mod_cast h0)))
  · intro hpos hnil
    rw [hwh] at hnil
    have hnum0 : p.2.outcomes.num_wall_hits = resolveNumWallHits srcs.2.2 0 := by
      rw [hnum, hnil]; simp
    rw [hnum0] at hpos
    obtain ⟨hne2, heq⟩ := resolveNumWallHits_zero_pos hpos
    exact ⟨kvs, srcs, hmem, hs, hne2, by rw [hnum0, heq]⟩

/-- C10 counterexample: a record with one derived cue wall-hit event whose
mapped cushion name is the falsy empty string and a stored outcomes
wall_hits count of 5 yields an entry with num_wall_hits 5 and empty
wall_hits although a cue wall-hit event *was* derived (hits_detail has
length 1), refuting the "only when no cue wall-hit events were derived"
reading. -/
theorem claim_C10_counterexample :
    ((entriesOf [PyVal.dict
        [("events", .list [.dict [("type", .str "linear_cushion"),
            ("ball_id", .str "cue"), ("cushion_id", .str "1"),
            ("frame", .int 0)]]),
         ("cushion", .dict [("1", .str "")]),
         ("outcomes", .dict [("wall_hits", .int 5)])]]).get? 0).map
      (fun p => (p.2.outcomes.num_wall_hits,
        p.2.outcomes.wall_hits.isEmpty, p.2.hits_detail.length)) =
      some (5, true, 1) := rfl

/-- The witness input for C10: one record with a single truthy-named cue
wall-hit event. -/
def wC10 : List PyVal :=
  [PyVal.dict
    [("events", .list [.dict [("type", .str "linear_cushion"),
        ("ball_id", .str "cue"), ("cushion_id", .int 1),
        ("frame", .int 7)]]),
     ("cushion", .dict [("1", .str "red-green-wall")])]]

/-- The entry `make_index` builds for the witness record of C10. -/
def wC10entry : MIEntry :=
  entryOf (.str "shot_0")
    (.list [.float 0, .float 0, .float 0],
     .list [.float 0, .float 0, .float 0], .dict [])
    [⟨"wall", .str "red-green-wall", .int 7, some 1⟩] []

/-- C10 witness: the invariant instantiated at the concrete witness
record. -/
theorem claim_C10_witness :
    (wC10entry.outcomes.wall_hits ≠ [] →
      wC10entry.outcomes.num_wall_hits =
        (wC10entry.outcomes.wall_hits.length : Int)) ∧
    (0 < wC10entry.outcomes.num_wall_hits →
      wC10entry.outcomes.wall_hits = [] →
      ∃ kvs srcs, (0, PyVal.dict kvs) ∈ wC10.enum ∧
        resolveSources kvs = .ok srcs ∧
        storedVal srcs.2.2 ≠ PyVal.none ∧
        wC10entry.outcomes.num_wall_hits =
          (pyIntOpt (storedVal srcs.2.2)).getD 0) :=
  claim_C10 wC10 (0, wC10entry)
    (by rw [show entriesOf wC10 = [(0, wC10entry)] from rfl]
        exact List.mem_singleton.mpr rfl)
